import Mathlib

/-!
Update bus of `pkg/sstore/updatebus.go`.

A shallow embedding of the subscription registry (`UpdateBus`), its three
operations (`RegisterChannel`, `UnregisterChannel`, `SendUpdate`) and the
scope matching rule (`UpdateChannel.Match`), and of the update payloads
(`PtyDataUpdate`, `ModelUpdate`), their type tags, their constructors and
the accessor `ReadHistoryDataFromUpdate`.

Modelling decisions.

* A Go channel value (`chan interface{}`) is a reference.  It is modelled as
  an index into a store of channel objects (`Heap`); `make` appends a new
  object, so the reference it returns is the old size of the store.
* A channel object records whether it has been closed and the sequence of
  values that were sent on it and accepted by its reader (`log`, oldest
  first).  The channels are unbuffered; a send that completes has handed its
  value to the reader.  Blocking is not modelled: every send on an open
  channel is accepted.
* `close` of a closed channel and a send on a closed channel panic in Go.
  Every operation returns `Except Panic _`.  A reference outside the store
  plays the role of an invalid (nil) channel.
* The Go map `map[string]UpdateChannel` is an association list.  Go leaves the
  iteration order of a map unspecified; the order of the list stands for the
  order the runtime happens to pick, and `sendLoop_perm` shows that the
  outcome of the fan-out does not depend on it.
* `Lock` is taken on entry and released on exit of each operation, so each
  operation is one atomic step; the mutex itself carries no state between
  calls and is not a field of the model.
* The payload (`interface{}`) is an arbitrary type `α`.
-/

namespace UpdateBusModel

/-- Go run-time panics the bus code can raise. -/
inductive Panic where
  | closeOfClosedChannel
  | sendOnClosedChannel
  | invalidChannel
  deriving DecidableEq

/-- A channel object: closed flag and the values delivered on it so far. -/
structure Chan (α : Type) where
  closed : Bool
  log : List α
  deriving DecidableEq

/-- The store of channel objects; a channel value is an index into it. -/
abbrev Heap (α : Type) := List (Chan α)

/-- Subscription record, `type UpdateChannel struct`. -/
structure UpdateChannel where
  SessionId : String
  ClientId : String
  Ch : Nat
  deriving DecidableEq

/-- Method `func (uch UpdateChannel) Match(sessionId string) bool`. -/
def UpdateChannel.Match (uch : UpdateChannel) (sessionId : String) : Bool :=
  if sessionId = "" then
    true
  else
    decide (sessionId = uch.SessionId)

/-- The bus: the `Channels` map together with the store its channels live in. -/
structure UpdateBus (α : Type) where
  Channels : List (String × UpdateChannel)
  heap : Heap α
  deriving DecidableEq

/-! ### Go map primitives on the association list -/

/-- Map read `m[key]` with the comma-ok form: `none` when the key is absent. -/
def mapGet : List (String × UpdateChannel) → String → Option UpdateChannel
  | [], _ => none
  | (k, v) :: rest, key => if k = key then some v else mapGet rest key

/-- Builtin `delete(m, key)`. -/
def mapDelete (m : List (String × UpdateChannel)) (key : String) :
    List (String × UpdateChannel) :=
  m.filter (fun p => decide (p.1 ≠ key))

/-- Map write `m[key] = v`. -/
def mapSet (m : List (String × UpdateChannel)) (key : String) (v : UpdateChannel) :
    List (String × UpdateChannel) :=
  (key, v) :: mapDelete m key

/-! ### Channel primitives on the store -/

/-- Builtin `make(chan interface{})`: a new open channel with nothing delivered. -/
def makeChan {α : Type} (h : Heap α) : Nat × Heap α :=
  (h.length, h ++ [{ closed := false, log := [] }])

/-- Builtin `close(ch)`. -/
def closeChan {α : Type} (h : Heap α) (ch : Nat) : Except Panic (Heap α) :=
  match h[ch]? with
  | none => .error .invalidChannel
  | some c =>
    if c.closed then .error .closeOfClosedChannel
    else .ok (h.set ch { c with closed := true })

/-- Send statement `ch <- update`, the reader accepting the value. -/
def sendChan {α : Type} (h : Heap α) (ch : Nat) (update : α) : Except Panic (Heap α) :=
  match h[ch]? with
  | none => .error .invalidChannel
  | some c =>
    if c.closed then .error .sendOnClosedChannel
    else .ok (h.set ch { c with log := c.log ++ [update] })

/-- The channel exists and has not been closed. -/
def isOpen {α : Type} (h : Heap α) (ch : Nat) : Bool :=
  match h[ch]? with
  | some c => !c.closed
  | none => false

/-- The channel exists and has been closed. -/
def isClosed {α : Type} (h : Heap α) (ch : Nat) : Bool :=
  match h[ch]? with
  | some c => c.closed
  | none => false

/-- Values delivered on the channel so far, oldest first. -/
def logOf {α : Type} (h : Heap α) (ch : Nat) : List α :=
  match h[ch]? with
  | some c => c.log
  | none => []

/-! ### The bus operations -/

/-- Constructor `func MakeUpdateBus() *UpdateBus`: empty map (and no channel made yet). -/
def MakeUpdateBus {α : Type} : UpdateBus α :=
  { Channels := [], heap := [] }

/-- Method `func (bus *UpdateBus) RegisterChannel(clientId, sessionId string) chan interface{}`.
Returns the channel handed to the caller and the bus afterwards. -/
def RegisterChannel {α : Type} (bus : UpdateBus α) (clientId sessionId : String) :
    Except Panic (Nat × UpdateBus α) :=
  match mapGet bus.Channels clientId with
  | some uch =>
    match closeChan bus.heap uch.Ch with
    | .error e => .error e
    | .ok h1 =>
      let (ch, h2) := makeChan h1
      let uch1 : UpdateChannel := { uch with SessionId := sessionId, Ch := ch }
      .ok (uch1.Ch, { Channels := mapSet bus.Channels clientId uch1, heap := h2 })
  | none =>
    let (ch, h2) := makeChan bus.heap
    let uch1 : UpdateChannel := { ClientId := clientId, SessionId := sessionId, Ch := ch }
    .ok (uch1.Ch, { Channels := mapSet bus.Channels clientId uch1, heap := h2 })

/-- Method `func (bus *UpdateBus) UnregisterChannel(clientId string)`. -/
def UnregisterChannel {α : Type} (bus : UpdateBus α) (clientId : String) :
    Except Panic (UpdateBus α) :=
  match mapGet bus.Channels clientId with
  | some uch =>
    match closeChan bus.heap uch.Ch with
    | .error e => .error e
    | .ok h1 => .ok { Channels := mapDelete bus.Channels clientId, heap := h1 }
  | none => .ok bus

/-- The `for _, uch := range bus.Channels` loop of `SendUpdate`. -/
def sendLoop {α : Type} (sessionId : String) (update : α) :
    List (String × UpdateChannel) → Heap α → Except Panic (Heap α)
  | [], h => .ok h
  | (_, uch) :: rest, h =>
    if uch.Match sessionId then
      match sendChan h uch.Ch update with
      | .error e => .error e
      | .ok h1 => sendLoop sessionId update rest h1
    else
      sendLoop sessionId update rest h

/-- Method `func (bus *UpdateBus) SendUpdate(sessionId string, update interface{})`. -/
def SendUpdate {α : Type} (bus : UpdateBus α) (sessionId : String) (update : α) :
    Except Panic (UpdateBus α) :=
  match sendLoop sessionId update bus.Channels bus.heap with
  | .error e => .error e
  | .ok h1 => .ok { bus with heap := h1 }

/-! ### Call sequences -/

/-- One call on the bus. -/
inductive Op (α : Type) where
  | register (clientId sessionId : String)
  | unregister (clientId : String)
  | send (sessionId : String) (update : α)
  deriving DecidableEq

/-- Effect of one call on the bus. -/
def step {α : Type} (bus : UpdateBus α) : Op α → Except Panic (UpdateBus α)
  | .register c s =>
    match RegisterChannel bus c s with
    | .error e => .error e
    | .ok r => .ok r.2
  | .unregister c => UnregisterChannel bus c
  | .send sid u => SendUpdate bus sid u

/-- Effect of a sequence of calls, stopping at the first panic. -/
def run {α : Type} (bus : UpdateBus α) : List (Op α) → Except Panic (UpdateBus α)
  | [] => .ok bus
  | op :: ops =>
    match step bus op with
    | .error e => .error e
    | .ok b => run b ops

/-- Channels held by the records of the registry. -/
def heldChans {α : Type} (bus : UpdateBus α) : List Nat :=
  bus.Channels.map (fun p => p.2.Ch)

/-- Every channel held by the registry in the start state or in any state
the call sequence passes through. -/
def heldAlong {α : Type} (bus : UpdateBus α) : List (Op α) → List Nat
  | [] => heldChans bus
  | op :: ops =>
    heldChans bus ++
      (match step bus op with
       | .error _ => []
       | .ok b => heldAlong b ops)

/-- The channels returned by the `RegisterChannel` calls of the sequence. -/
def returnedAlong {α : Type} (bus : UpdateBus α) : List (Op α) → List Nat
  | [] => []
  | .register c s :: ops =>
    match RegisterChannel bus c s with
    | .error _ => []
    | .ok r => r.1 :: returnedAlong r.2 ops
  | op :: ops =>
    match step bus op with
    | .error _ => []
    | .ok b => returnedAlong b ops

/-- Registry invariant of the data model: one record per client id, every
held channel exists and is open, and no two records hold the same channel. -/
def Inv {α : Type} (bus : UpdateBus α) : Prop :=
  (bus.Channels.map Prod.fst).Nodup ∧
  (∀ p ∈ bus.Channels, isOpen bus.heap p.2.Ch = true) ∧
  (heldChans bus).Nodup

instance {α : Type} [DecidableEq α] (bus : UpdateBus α) : Decidable (Inv bus) :=
  inferInstanceAs (Decidable (_ ∧ _ ∧ _))

/-- Number of records of the list that match the scope and hold channel `j`. -/
def matchCount (sid : String) (j : Nat) (l : List (String × UpdateChannel)) : Nat :=
  l.countP (fun p => p.2.Match sid && decide (p.2.Ch = j))

/-- The `ClientId` field `RegisterChannel` stores: the one of the record it
found, or the client id it was called with. -/
def storedClientId (m : List (String × UpdateChannel)) (clientId : String) : String :=
  match mapGet m clientId with
  | some uch => uch.ClientId
  | none => clientId

/-- The channel a call closes: the one of the record found under the client
id by `RegisterChannel` or `UnregisterChannel`; `SendUpdate` closes none. -/
def closedBy {α : Type} (bus : UpdateBus α) : Op α → List Nat
  | .register c _ =>
    match mapGet bus.Channels c with
    | some uch => [uch.Ch]
    | none => []
  | .unregister c =>
    match mapGet bus.Channels c with
    | some uch => [uch.Ch]
    | none => []
  | .send _ _ => []

/-- Every `close` executed along the call sequence, in execution order. -/
def closesAlong {α : Type} (bus : UpdateBus α) : List (Op α) → List Nat
  | [] => []
  | op :: ops =>
    closedBy bus op ++
      (match step bus op with
       | .error _ => []
       | .ok b => closesAlong b ops)

/-- The call registers or unregisters the given client id. -/
def touches {α : Type} (c : String) : Op α → Bool
  | .register c1 _ => decide (c1 = c)
  | .unregister c1 => decide (c1 = c)
  | .send _ _ => false

/-- The calls `SendUpdate(sid_1, u_1), ..., SendUpdate(sid_n, u_n)`. -/
def sendOps {α : Type} (sends : List (String × α)) : List (Op α) :=
  sends.map (fun p => Op.send p.1 p.2)

/-- The updates of the `SendUpdate` calls of the sequence whose scope
argument the record matches, in call order. -/
def deliveredTo {α : Type} (uch : UpdateChannel) : List (Op α) → List α
  | [] => []
  | .send sid u :: ops =>
    if uch.Match sid then u :: deliveredTo uch ops else deliveredTo uch ops
  | _ :: ops => deliveredTo uch ops

/-! ### Update payloads

A Go pointer `*T` is an `Option T`: `none` is the nil pointer, `some v` a
pointer to an object whose content is `v`.  A slice `[]T` is an
`Option (List T)`, `none` being the nil slice.  `int64` fields are `Int`.
A field a composite literal leaves out has the zero value of its type. -/

/-- Modelled from the spec: the types this file names but that are declared
elsewhere in the package (`WindowType`, `RemotePtrType`, `RemoteInstance`,
`HistoryItemType`, the element type of `ModelUpdate.Remotes`), and, for
`LineType`, `CmdType` and `SessionType`, the fields this file does not name
(`LineRest`, `CmdRest`, `SessionRest`), with the zero value of the latter. -/
structure Decls where
  WindowType : Type
  RemotePtrType : Type
  RemoteInstance : Type
  HistoryItemType : Type
  RemoteState : Type
  LineRest : Type
  CmdRest : Type
  SessionRest : Type
  sessionRestZero : SessionRest

/-- Constant `PtyDataUpdateStr`. -/
def PtyDataUpdateStr : String := "pty"

/-- Constant `ModelUpdateStr`. -/
def ModelUpdateStr : String := "model"

/-- Record `type PtyDataUpdate struct`. -/
structure PtyDataUpdate where
  SessionId : String
  CmdId : String
  RemoteId : String
  PtyPos : Int
  PtyData64 : String
  PtyDataLen : Int

/-- Method `func (PtyDataUpdate) UpdateType() string`. -/
def PtyDataUpdate.UpdateType (_ : PtyDataUpdate) : String :=
  PtyDataUpdateStr

/-- Record `type InfoMsgType struct`. -/
structure InfoMsgType where
  InfoTitle : String
  InfoError : String
  InfoMsg : String
  InfoComps : Option (List String)
  InfoCompsMore : Bool
  InfoLines : Option (List String)
  TimeoutMs : Int

/-- Record `type HistoryInfoType struct`. -/
structure HistoryInfoType (D : Decls) where
  HistoryType : String
  SessionId : String
  WindowId : String
  Items : Option (List (Option D.HistoryItemType))
  Show : Bool

/-- Record `type CmdLineType struct`. -/
structure CmdLineType where
  InsertChars : String
  InsertPos : Int

/-- Modelled from the spec: `LineType` is declared elsewhere in the package;
the fields are the two this file reads and the rest of the record. -/
structure LineType (D : Decls) where
  LineId : String
  CmdId : String
  rest : D.LineRest

/-- Modelled from the spec: `CmdType` is declared elsewhere in the package;
the fields are the one this file reads and the rest of the record. -/
structure CmdType (D : Decls) where
  Remote : D.RemotePtrType
  rest : D.CmdRest

/-- Modelled from the spec: `SessionType` is declared elsewhere in the
package; the fields are the three this file sets and the rest of the record. -/
structure SessionType (D : Decls) where
  SessionId : String
  NotifyNum : Int
  Remotes : Option (List (Option D.RemoteInstance))
  rest : D.SessionRest

/-- Record `type ModelUpdate struct`. -/
structure ModelUpdate (D : Decls) where
  Sessions : Option (List (Option (SessionType D)))
  ActiveSessionId : String
  Window : Option D.WindowType
  Line : Option (LineType D)
  Cmd : Option (CmdType D)
  CmdLine : Option CmdLineType
  Info : Option InfoMsgType
  Remotes : Option (List D.RemoteState)
  History : Option (HistoryInfoType D)
  Interactive : Bool
  Connect : Bool

/-- Method `func (ModelUpdate) UpdateType() string`. -/
def ModelUpdate.UpdateType {D : Decls} (_ : ModelUpdate D) : String :=
  ModelUpdateStr

/-- A value of the interface `UpdatePacket`, by its dynamic type: the nil
interface, a `PtyDataUpdate` or `ModelUpdate` value, or a pointer to one
(the methods have value receivers, so the pointer types implement the
interface as well). -/
inductive UpdatePacket (D : Decls) where
  | nilPacket
  | ptyValue (u : PtyDataUpdate)
  | modelValue (u : ModelUpdate D)
  | ptyPointer (u : Option PtyDataUpdate)
  | modelPointer (u : Option (ModelUpdate D))

/-- Call `update.UpdateType()` through the interface; `none` is the run-time
panic of a call through a nil interface or a nil pointer. -/
def UpdatePacket.UpdateType {D : Decls} : UpdatePacket D → Option String
  | .nilPacket => none
  | .ptyValue u => some u.UpdateType
  | .modelValue u => some u.UpdateType
  | .ptyPointer none => none
  | .ptyPointer (some u) => some u.UpdateType
  | .modelPointer none => none
  | .modelPointer (some u) => some u.UpdateType

/-- Function `func MakeSingleSessionUpdate(sessionId string) (ModelUpdate, *SessionType)`. -/
def MakeSingleSessionUpdate (D : Decls) (sessionId : String) :
    ModelUpdate D × Option (SessionType D) :=
  let session : Option (SessionType D) := some
    { SessionId := sessionId
      NotifyNum := -1
      Remotes := none
      rest := D.sessionRestZero }
  let update : ModelUpdate D :=
    { Sessions := some [session]
      ActiveSessionId := ""
      Window := none
      Line := none
      Cmd := none
      CmdLine := none
      Info := none
      Remotes := none
      History := none
      Interactive := false
      Connect := false }
  (update, session)

/-- Function `func ReadHistoryDataFromUpdate(update UpdatePacket) (string, string, *RemotePtrType)`.
The type assertion `update.(ModelUpdate)` succeeds for the dynamic type
`ModelUpdate` only. -/
def ReadHistoryDataFromUpdate {D : Decls} (update : UpdatePacket D) :
    String × String × Option D.RemotePtrType :=
  match update with
  | .modelValue modelUpdate =>
    match modelUpdate.Line with
    | none => ("", "", none)
    | some line =>
      let rptr : Option D.RemotePtrType :=
        match modelUpdate.Cmd with
        | some cmd => some cmd.Remote
        | none => none
      (line.LineId, line.CmdId, rptr)
  | _ => ("", "", none)

/-- Function `func InfoMsgUpdate(infoMsgFmt string, args ...interface{}) *ModelUpdate`.
The library function `fmt.Sprintf` is the parameter `sprintf`. -/
def InfoMsgUpdate (D : Decls) {A : Type} (sprintf : String → List A → String)
    (infoMsgFmt : String) (args : List A) : Option (ModelUpdate D) :=
  let msg := sprintf infoMsgFmt args
  some
    { Sessions := none
      ActiveSessionId := ""
      Window := none
      Line := none
      Cmd := none
      CmdLine := none
      Info := some
        { InfoTitle := ""
          InfoError := ""
          InfoMsg := msg
          InfoComps := none
          InfoCompsMore := false
          InfoLines := none
          TimeoutMs := 0 }
      Remotes := none
      History := none
      Interactive := false
      Connect := false }

/-- Function `func MakeSessionsUpdateForRemote(sessionId string, ri *RemoteInstance) []*SessionType`. -/
def MakeSessionsUpdateForRemote (D : Decls) (sessionId : String)
    (ri : Option D.RemoteInstance) : Option (List (Option (SessionType D))) :=
  some [some
    { SessionId := sessionId
      NotifyNum := 0
      Remotes := some [ri]
      rest := D.sessionRestZero }]

/-- Sample declarations: every type declared elsewhere is the one-point type. -/
def sampleDecls : Decls :=
  { WindowType := Unit
    RemotePtrType := Unit
    RemoteInstance := Unit
    HistoryItemType := Unit
    RemoteState := Unit
    LineRest := Unit
    CmdRest := Unit
    SessionRest := Unit
    sessionRestZero := () }

/-- Operand of the sample formatter: a Go `int` or a Go `string`. -/
inductive GoArg where
  | int (n : Int)
  | str (s : String)

/-- The operand as the verb `%v` prints it. -/
def GoArg.render : GoArg → String
  | .int n => toString n
  | .str s => s

/-- The operand as Go prints it in an error marker, `type=value`. -/
def GoArg.typed : GoArg → String
  | .int n => "int=" ++ toString n
  | .str s => "string=" ++ s

/-- One verb applied to one operand: `%d` on an integer, `%s` on a string,
`%v` on either; any other pairing gives the bad-verb marker of Go. -/
def formatVerb (v : Char) (a : GoArg) : String :=
  match v, a with
  | 'd', .int n => toString n
  | 's', .str s => s
  | 'v', a => a.render
  | v, a => "%!" ++ String.singleton v ++ "(" ++ a.typed ++ ")"

/-- The marker Go appends for operands the format did not use. -/
def formatExtra : List GoArg → String
  | [] => ""
  | a :: rest =>
    "%!(EXTRA " ++ ", ".intercalate (a.typed :: rest.map GoArg.typed) ++ ")"

/-- The sample formatter on the characters of the format. -/
def sprintfChars : List Char → List GoArg → String
  | [], args => formatExtra args
  | c :: rest, args =>
    if c = '%' then
      match rest, args with
      | [], args => "%!(NOVERB)" ++ formatExtra args
      | v :: rest1, args =>
        if v = '%' then "%" ++ sprintfChars rest1 args
        else
          match args with
          | [] => "%!" ++ String.singleton v ++ "(MISSING)" ++ sprintfChars rest1 []
          | a :: args1 => formatVerb v a ++ sprintfChars rest1 args1
    else String.singleton c ++ sprintfChars rest args

/-- A fragment of the library function `fmt.Sprintf`, used to instantiate
the `sprintf` parameter: verbs `%d`, `%s`, `%v` and `%%` on integer and
string operands, with the markers Go prints for a missing operand, a missing
verb and unused operands. -/
def sprintfModel (format : String) (args : List GoArg) : String :=
  sprintfChars format.toList args

/-- A sample model update with a line facet and a command facet. -/
def sampleLineUpdate : ModelUpdate sampleDecls :=
  { Sessions := none
    ActiveSessionId := ""
    Window := none
    Line := some { LineId := "line1", CmdId := "cmd1", rest := () }
    Cmd := some { Remote := (), rest := () }
    CmdLine := none
    Info := none
    Remotes := none
    History := none
    Interactive := false
    Connect := false }

/-- A sample model update with a command facet and no line facet. -/
def sampleNoLineUpdate : ModelUpdate sampleDecls :=
  { sampleLineUpdate with Line := none }

/-- A sample bus: client "a" subscribed to "sess1" on channel 0, client "b"
subscribed to every session on channel 2; channel 1 was closed earlier. -/
def sampleBus : UpdateBus Nat :=
  { Channels := [("a", { SessionId := "sess1", ClientId := "a", Ch := 0 }),
                 ("b", { SessionId := "", ClientId := "b", Ch := 2 })],
    heap := [{ closed := false, log := [] }, { closed := true, log := [4] },
             { closed := false, log := [4] }] }

/-! ### Facts about the channel store -/

section HeapFacts

variable {α : Type}

theorem isOpen_iff {h : Heap α} {i : Nat} :
    isOpen h i = true ↔ ∃ c, h[i]? = some c ∧ c.closed = false := by
  unfold isOpen
  cases hc : h[i]? with
  | none => simp
  | some c => simp

theorem isOpen_lt {h : Heap α} {i : Nat} (hi : isOpen h i = true) : i < h.length := by
  obtain ⟨c, hc, _⟩ := isOpen_iff.mp hi
  exact (List.getElem?_eq_some.mp hc).1

theorem isOpen_congr {h h1 : Heap α} {i : Nat} (e : h1[i]? = h[i]?) :
    isOpen h1 i = isOpen h i := by
  unfold isOpen; rw [e]

theorem isClosed_congr {h h1 : Heap α} {i : Nat} (e : h1[i]? = h[i]?) :
    isClosed h1 i = isClosed h i := by
  unfold isClosed; rw [e]

theorem logOf_congr {h h1 : Heap α} {i : Nat} (e : h1[i]? = h[i]?) :
    logOf h1 i = logOf h i := by
  unfold logOf; rw [e]

theorem isClosed_not_isOpen {h : Heap α} {i : Nat} (hi : isClosed h i = true) :
    isOpen h i = false := by
  unfold isClosed at hi
  unfold isOpen
  cases hc : h[i]? with
  | none => rfl
  | some c => rw [hc] at hi; simp only at hi; simp [hi]

/-- Closing an open channel succeeds; it closes that channel, keeps what was
delivered on it, and touches no other channel. -/
theorem closeChan_ok {h : Heap α} {i : Nat} (hi : isOpen h i = true) :
    ∃ h1, closeChan h i = .ok h1 ∧ h1.length = h.length ∧ isClosed h1 i = true ∧
      logOf h1 i = logOf h i ∧ ∀ j, j ≠ i → h1[j]? = h[j]? := by
  obtain ⟨c, hc, hcl⟩ := isOpen_iff.mp hi
  have hlt : i < h.length := isOpen_lt hi
  refine ⟨h.set i { c with closed := true }, ?_, ?_, ?_, ?_, ?_⟩
  · unfold closeChan; rw [hc]; simp [hcl]
  · simp
  · unfold isClosed; rw [List.getElem?_set]; simp [hlt]
  · unfold logOf; rw [List.getElem?_set, hc]; simp [hlt]
  · intro j hj
    exact List.getElem?_set_ne (Ne.symm hj)

/-- A close that succeeded was a close of an open channel. -/
theorem closeChan_ok_isOpen {h h1 : Heap α} {i : Nat} (e : closeChan h i = .ok h1) :
    isOpen h i = true := by
  unfold closeChan at e
  cases hc : h[i]? with
  | none => rw [hc] at e; cases e
  | some c =>
    rw [hc] at e
    cases hcl : c.closed with
    | true => simp [hcl] at e
    | false => exact isOpen_iff.mpr ⟨c, hc, hcl⟩

/-- Sending on an open channel succeeds; it appends the value to that
channel, leaves it open, and touches no other channel. -/
theorem sendChan_ok {h : Heap α} {i : Nat} (u : α) (hi : isOpen h i = true) :
    ∃ h1, sendChan h i u = .ok h1 ∧ h1.length = h.length ∧ isOpen h1 i = true ∧
      logOf h1 i = logOf h i ++ [u] ∧ ∀ j, j ≠ i → h1[j]? = h[j]? := by
  obtain ⟨c, hc, hcl⟩ := isOpen_iff.mp hi
  have hlt : i < h.length := isOpen_lt hi
  refine ⟨h.set i { c with log := c.log ++ [u] }, ?_, ?_, ?_, ?_, ?_⟩
  · unfold sendChan; rw [hc]; simp [hcl]
  · simp
  · unfold isOpen; rw [List.getElem?_set]; simp [hlt, hcl]
  · unfold logOf; rw [List.getElem?_set, hc]; simp [hlt]
  · intro j hj
    exact List.getElem?_set_ne (Ne.symm hj)

/-- The channel made by `make` is open and empty; older channels are untouched. -/
theorem makeChan_spec (h : Heap α) :
    (makeChan h).1 = h.length ∧ isOpen (makeChan h).2 h.length = true ∧
      logOf (makeChan h).2 h.length = [] ∧ (makeChan h).2.length = h.length + 1 ∧
      ∀ j, j < h.length → (makeChan h).2[j]? = h[j]? := by
  refine ⟨rfl, ?_, ?_, ?_, ?_⟩
  · unfold isOpen makeChan; simp
  · unfold logOf makeChan; simp
  · simp [makeChan]
  · intro j hj
    simp only [makeChan]
    exact List.getElem?_append_left hj

end HeapFacts

/-! ### Facts about the map primitives -/

section MapFacts

theorem mapGet_some_mem {m : List (String × UpdateChannel)} {k : String} {v : UpdateChannel}
    (e : mapGet m k = some v) : (k, v) ∈ m := by
  induction m with
  | nil => cases e
  | cons p rest ih =>
    obtain ⟨k1, v1⟩ := p
    unfold mapGet at e
    by_cases hk : k1 = k
    · simp only [hk, if_true, Option.some.injEq] at e
      subst hk; subst e
      exact List.mem_cons_self _ _
    · simp only [hk, if_false] at e
      exact List.mem_cons_of_mem _ (ih e)

theorem mapGet_none_iff {m : List (String × UpdateChannel)} {k : String} :
    mapGet m k = none ↔ ∀ p ∈ m, p.1 ≠ k := by
  induction m with
  | nil => simp [mapGet]
  | cons p rest ih =>
    obtain ⟨k1, v1⟩ := p
    unfold mapGet
    by_cases hk : k1 = k
    · simp [hk]
    · simp [hk, ih]

theorem mem_mapDelete {m : List (String × UpdateChannel)} {k : String}
    {p : String × UpdateChannel} : p ∈ mapDelete m k ↔ p ∈ m ∧ p.1 ≠ k := by
  simp [mapDelete, List.mem_filter]

theorem mapDelete_of_none {m : List (String × UpdateChannel)} {k : String}
    (e : mapGet m k = none) : mapDelete m k = m := by
  unfold mapDelete
  rw [List.filter_eq_self]
  intro p hp
  simpa using mapGet_none_iff.mp e p hp

theorem mapGet_mapDelete_self (m : List (String × UpdateChannel)) (k : String) :
    mapGet (mapDelete m k) k = none := by
  rw [mapGet_none_iff]
  intro p hp
  exact (mem_mapDelete.mp hp).2

theorem mapGet_mapDelete_ne {m : List (String × UpdateChannel)} {k k1 : String}
    (hk : k1 ≠ k) : mapGet (mapDelete m k) k1 = mapGet m k1 := by
  induction m with
  | nil => rfl
  | cons p rest ih =>
    obtain ⟨k2, v2⟩ := p
    unfold mapDelete at ih ⊢
    simp only [ne_eq, decide_not] at ih ⊢
    by_cases h2 : k2 = k
    · have h3 : ¬ k = k1 := fun h => hk h.symm
      simp only [List.filter_cons, h2, decide_True, Bool.not_true, Bool.false_eq_true,
        if_false, mapGet]
      rw [ih, if_neg h3]
    · simp only [List.filter_cons, h2, decide_False, Bool.not_false, if_true, mapGet, ih]

theorem mapGet_mapSet_self (m : List (String × UpdateChannel)) (k : String)
    (v : UpdateChannel) : mapGet (mapSet m k v) k = some v := by
  simp [mapSet, mapGet]

theorem mapGet_mapSet_ne {m : List (String × UpdateChannel)} {k k1 : String}
    (v : UpdateChannel) (hk : k1 ≠ k) : mapGet (mapSet m k v) k1 = mapGet m k1 := by
  have h3 : ¬ k = k1 := fun h => hk h.symm
  simp [mapSet, mapGet, h3, mapGet_mapDelete_ne hk]

/-- After a map write the key has exactly one entry. -/
theorem mapSet_entries (m : List (String × UpdateChannel)) (k : String)
    (v : UpdateChannel) : (mapSet m k v).filter (fun p => decide (p.1 = k)) = [(k, v)] := by
  unfold mapSet
  rw [List.filter_cons]
  simp only [decide_True, if_true, List.cons.injEq, true_and]
  rw [List.filter_eq_nil_iff]
  intro p hp
  simpa using (mem_mapDelete.mp hp).2

theorem mapDelete_keys_nodup {m : List (String × UpdateChannel)} (k : String)
    (hm : (m.map Prod.fst).Nodup) : ((mapDelete m k).map Prod.fst).Nodup := by
  unfold mapDelete
  exact List.Nodup.sublist (List.Sublist.map _ (List.filter_sublist _)) hm

/-- With one entry per key, the entry found by a read is the only one for its key. -/
theorem mapGet_of_mem {m : List (String × UpdateChannel)} {p : String × UpdateChannel}
    (hm : (m.map Prod.fst).Nodup) (hp : p ∈ m) : mapGet m p.1 = some p.2 := by
  induction m with
  | nil => cases hp
  | cons q rest ih =>
    obtain ⟨k1, v1⟩ := q
    simp only [List.map_cons, List.nodup_cons] at hm
    unfold mapGet
    rcases List.mem_cons.mp hp with h | h
    · subst h; simp
    · have hne : ¬ k1 = p.1 := by
        intro e
        exact hm.1 (e ▸ List.mem_map_of_mem Prod.fst h)
      simp only [hne, if_false]
      exact ih hm.2 h

end MapFacts

/-! ### The fan-out loop -/

section LoopFacts

variable {α : Type}

theorem isOpen_not_isClosed {h : Heap α} {i : Nat} (hi : isOpen h i = true) :
    isClosed h i = false := by
  obtain ⟨c, hc, hcl⟩ := isOpen_iff.mp hi
  unfold isClosed; rw [hc]; exact hcl

/-- When every matched record holds an open channel the loop runs to its
end; it opens and closes nothing, and each channel receives one copy of the
update per matched record holding it. -/
theorem sendLoop_ok (sid : String) (u : α) :
    ∀ (l : List (String × UpdateChannel)) (h : Heap α),
      (∀ p ∈ l, p.2.Match sid = true → isOpen h p.2.Ch = true) →
      ∃ h1, sendLoop sid u l h = .ok h1 ∧ h1.length = h.length ∧
        (∀ j, isOpen h1 j = isOpen h j) ∧ (∀ j, isClosed h1 j = isClosed h j) ∧
        ∀ j, logOf h1 j = logOf h j ++ List.replicate (matchCount sid j l) u := by
  intro l
  induction l with
  | nil =>
    intro h _
    exact ⟨h, rfl, rfl, fun _ => rfl, fun _ => rfl, fun j => by simp [matchCount]⟩
  | cons p rest ih =>
    intro h hop
    obtain ⟨k, uch⟩ := p
    by_cases hm : uch.Match sid = true
    · have ho : isOpen h uch.Ch = true := hop (k, uch) (List.mem_cons_self _ _) hm
      obtain ⟨h1, e1, len1, o1, lg1, fr1⟩ := sendChan_ok u ho
      have open1 : ∀ j, isOpen h1 j = isOpen h j := by
        intro j
        by_cases hj : j = uch.Ch
        · subst hj; rw [o1, ho]
        · exact isOpen_congr (fr1 j hj)
      have closed1 : ∀ j, isClosed h1 j = isClosed h j := by
        intro j
        by_cases hj : j = uch.Ch
        · subst hj; rw [isOpen_not_isClosed o1, isOpen_not_isClosed ho]
        · exact isClosed_congr (fr1 j hj)
      obtain ⟨h2, e2, len2, o2, c2, lg2⟩ := ih h1 (fun q hq hqm => by
        rw [open1]; exact hop q (List.mem_cons_of_mem _ hq) hqm)
      refine ⟨h2, ?_, len2.trans len1, fun j => (o2 j).trans (open1 j),
        fun j => (c2 j).trans (closed1 j), ?_⟩
      · simp only [sendLoop, hm, if_true, e1]
        exact e2
      · intro j
        rw [lg2 j]
        unfold matchCount
        rw [List.countP_cons]
        by_cases hj : uch.Ch = j
        · subst hj
          rw [lg1]
          simp [hm, List.replicate_succ]
        · rw [logOf_congr (fr1 j (Ne.symm hj))]
          simp [hj]
    · obtain ⟨h2, e2, len2, o2, c2, lg2⟩ := ih h (fun q hq hqm =>
        hop q (List.mem_cons_of_mem _ hq) hqm)
      refine ⟨h2, ?_, len2, o2, c2, ?_⟩
      · simp only [sendLoop, hm, Bool.false_eq_true, if_false]
        exact e2
      · intro j
        rw [lg2 j]
        unfold matchCount
        rw [List.countP_cons]
        simp [hm]

/-- Two stores of the same size that agree on the closed flag and on the
delivered values of every channel are the same store. -/
theorem heap_ext {h1 h2 : Heap α} (hlen : h1.length = h2.length)
    (hc : ∀ j, isClosed h1 j = isClosed h2 j) (hl : ∀ j, logOf h1 j = logOf h2 j) :
    h1 = h2 := by
  apply List.ext_getElem?
  intro j
  by_cases hj : j < h1.length
  · have hj2 : j < h2.length := hlen ▸ hj
    have e1 := List.getElem?_eq_getElem hj
    have e2 := List.getElem?_eq_getElem hj2
    have c := hc j
    have l := hl j
    unfold isClosed at c
    unfold logOf at l
    rw [e1, e2] at c l
    simp only at c l
    rw [e1, e2]
    cases hx : h1[j] with
    | mk c1 l1 =>
      cases hy : h2[j] with
      | mk c2 l2 =>
        rw [hx, hy] at c l
        simp only at c l
        rw [c, l]
  · have hj2 : ¬ j < h2.length := hlen ▸ hj
    rw [List.getElem?_eq_none (not_lt.mp hj), List.getElem?_eq_none (not_lt.mp hj2)]

/-- The order in which the loop visits the records does not matter: when
every matched record holds an open channel, two orders of the same records
produce the same store. -/
theorem sendLoop_perm (sid : String) (u : α) {l1 l2 : List (String × UpdateChannel)}
    (hp : l1.Perm l2) (h : Heap α)
    (hop : ∀ p ∈ l1, p.2.Match sid = true → isOpen h p.2.Ch = true) :
    sendLoop sid u l1 h = sendLoop sid u l2 h := by
  obtain ⟨h1, e1, len1, _, c1, lg1⟩ := sendLoop_ok sid u l1 h hop
  obtain ⟨h2, e2, len2, _, c2, lg2⟩ := sendLoop_ok sid u l2 h
    (fun p hp2 hm => hop p (hp.mem_iff.mpr hp2) hm)
  rw [e1, e2]
  congr 1
  apply heap_ext (len1.trans len2.symm)
  · intro j; rw [c1 j, c2 j]
  · intro j
    rw [lg1 j, lg2 j]
    unfold matchCount
    rw [List.Perm.countP_eq _ hp]

/-- With no two records holding the same channel, a channel is counted once
when a matching record holds it and not at all otherwise. -/
theorem matchCount_of_nodup (sid : String) (j : Nat) :
    ∀ (l : List (String × UpdateChannel)), (l.map (fun p => p.2.Ch)).Nodup →
      matchCount sid j l = if ∃ p ∈ l, p.2.Ch = j ∧ p.2.Match sid = true then 1 else 0 := by
  intro l
  induction l with
  | nil => intro _; simp [matchCount]
  | cons q rest ih =>
    intro hnd
    simp only [List.map_cons, List.nodup_cons] at hnd
    have ih1 := ih hnd.2
    unfold matchCount at ih1 ⊢
    rw [List.countP_cons, ih1]
    by_cases hq : q.2.Ch = j
    · have hno : ¬ ∃ p ∈ rest, p.2.Ch = j ∧ p.2.Match sid = true := by
        rintro ⟨p, hp, hpj, _⟩
        exact hnd.1 (List.mem_map.mpr ⟨p, hp, hpj.trans hq.symm⟩)
      by_cases hm : q.2.Match sid = true
      · simp [hq, hm, hno]
      · simp [hq, hm, hno]
    · by_cases hex : ∃ p ∈ rest, p.2.Ch = j ∧ p.2.Match sid = true
      · have : ∃ p ∈ q :: rest, p.2.Ch = j ∧ p.2.Match sid = true := by
          obtain ⟨p, hp, h1⟩ := hex
          exact ⟨p, List.mem_cons_of_mem _ hp, h1⟩
        simp [hq, hex, this]
      · have : ¬ ∃ p ∈ q :: rest, p.2.Ch = j ∧ p.2.Match sid = true := by
          rintro ⟨p, hp, h1, h2⟩
          rcases List.mem_cons.mp hp with e | e
          · subst e; exact hq h1
          · exact hex ⟨p, e, h1, h2⟩
        simp [hq, hex, this]

end LoopFacts

/-! ### What each operation does to the bus -/

section OpFacts

variable {α : Type}

/-- The call `RegisterChannel` completes when the channel of the prior record, if
there is one, is open.  The channel it returns is the next reference of the
store. -/
theorem RegisterChannel_ok (bus : UpdateBus α) (c s : String)
    (hprior : ∀ uch, mapGet bus.Channels c = some uch → isOpen bus.heap uch.Ch = true) :
    ∃ bus1, RegisterChannel bus c s = .ok (bus.heap.length, bus1) ∧
      bus1.Channels = mapSet bus.Channels c
        { SessionId := s, ClientId := storedClientId bus.Channels c, Ch := bus.heap.length } ∧
      bus1.heap.length = bus.heap.length + 1 ∧
      isOpen bus1.heap bus.heap.length = true ∧
      logOf bus1.heap bus.heap.length = [] ∧
      (∀ uch, mapGet bus.Channels c = some uch →
        isClosed bus1.heap uch.Ch = true ∧ logOf bus1.heap uch.Ch = logOf bus.heap uch.Ch) ∧
      (∀ j, j < bus.heap.length → (∀ uch, mapGet bus.Channels c = some uch → j ≠ uch.Ch) →
        bus1.heap[j]? = bus.heap[j]?) := by
  cases hg : mapGet bus.Channels c with
  | none =>
    obtain ⟨m1, m2, m3, m4, m5⟩ := makeChan_spec bus.heap
    refine ⟨⟨mapSet bus.Channels c ⟨s, c, bus.heap.length⟩, (makeChan bus.heap).2⟩,
      ?_, ?_, m4, m2, m3, ?_, ?_⟩
    · simp [RegisterChannel, hg, makeChan]
    · simp [storedClientId, hg]
    · intro uch h; cases h
    · intro j hj _; exact m5 j hj
  | some uch =>
    have ho := hprior uch hg
    obtain ⟨h1, e1, len1, cl1, lg1, fr1⟩ := closeChan_ok ho
    obtain ⟨m1, m2, m3, m4, m5⟩ := makeChan_spec h1
    have hlt : uch.Ch < h1.length := len1 ▸ isOpen_lt ho
    refine ⟨⟨mapSet bus.Channels c ⟨s, uch.ClientId, bus.heap.length⟩, (makeChan h1).2⟩,
      ?_, ?_, ?_, ?_, ?_, ?_, ?_⟩
    · simp [RegisterChannel, hg, e1, makeChan, len1]
    · simp [storedClientId, hg]
    · simpa [len1] using m4
    · simpa [len1] using m2
    · simpa [len1] using m3
    · intro uch1 h
      cases h
      exact ⟨(isClosed_congr (m5 _ hlt)).trans cl1, (logOf_congr (m5 _ hlt)).trans lg1⟩
    · intro j hj hne
      exact (m5 j (len1 ▸ hj)).trans (fr1 j (hne uch rfl))

/-- The call `UnregisterChannel` completes when the channel of the record, if there
is one, is open. -/
theorem UnregisterChannel_ok (bus : UpdateBus α) (c : String)
    (hprior : ∀ uch, mapGet bus.Channels c = some uch → isOpen bus.heap uch.Ch = true) :
    ∃ bus1, UnregisterChannel bus c = .ok bus1 ∧
      bus1.Channels = mapDelete bus.Channels c ∧
      bus1.heap.length = bus.heap.length ∧
      (∀ uch, mapGet bus.Channels c = some uch →
        isClosed bus1.heap uch.Ch = true ∧ logOf bus1.heap uch.Ch = logOf bus.heap uch.Ch) ∧
      (∀ j, (∀ uch, mapGet bus.Channels c = some uch → j ≠ uch.Ch) →
        bus1.heap[j]? = bus.heap[j]?) := by
  cases hg : mapGet bus.Channels c with
  | none =>
    refine ⟨bus, ?_, (mapDelete_of_none hg).symm, rfl, ?_, fun _ _ => rfl⟩
    · simp [UnregisterChannel, hg]
    · intro uch h; cases h
  | some uch =>
    have ho := hprior uch hg
    obtain ⟨h1, e1, len1, cl1, lg1, fr1⟩ := closeChan_ok ho
    refine ⟨{ Channels := mapDelete bus.Channels c, heap := h1 }, ?_, rfl, len1, ?_, ?_⟩
    · simp [UnregisterChannel, hg, e1]
    · intro uch1 h
      cases h
      exact ⟨cl1, lg1⟩
    · intro j hne
      exact fr1 j (hne uch rfl)

/-- The call `SendUpdate` completes when every matched record holds an open channel;
the map is untouched, no channel is opened or closed, and each channel
receives one copy of the update per matched record holding it. -/
theorem SendUpdate_ok (bus : UpdateBus α) (sid : String) (u : α)
    (hop : ∀ p ∈ bus.Channels, p.2.Match sid = true → isOpen bus.heap p.2.Ch = true) :
    ∃ bus1, SendUpdate bus sid u = .ok bus1 ∧
      bus1.Channels = bus.Channels ∧
      bus1.heap.length = bus.heap.length ∧
      (∀ j, isOpen bus1.heap j = isOpen bus.heap j) ∧
      (∀ j, isClosed bus1.heap j = isClosed bus.heap j) ∧
      ∀ j, logOf bus1.heap j =
        logOf bus.heap j ++ List.replicate (matchCount sid j bus.Channels) u := by
  obtain ⟨h1, e1, len1, o1, c1, lg1⟩ := sendLoop_ok sid u bus.Channels bus.heap hop
  exact ⟨{ bus with heap := h1 }, by simp [SendUpdate, e1], rfl, len1, o1, c1, lg1⟩

end OpFacts

/-! ### The registry invariant along call sequences -/

section InvFacts

variable {α : Type}

theorem Inv_MakeUpdateBus : Inv (MakeUpdateBus : UpdateBus α) := by
  simp [Inv, MakeUpdateBus, heldChans]

theorem Inv_prior {bus : UpdateBus α} (hinv : Inv bus) (c : String) :
    ∀ uch, mapGet bus.Channels c = some uch → isOpen bus.heap uch.Ch = true :=
  fun _ hg => hinv.2.1 _ (mapGet_some_mem hg)

theorem Inv_held_lt {bus : UpdateBus α} (hinv : Inv bus) :
    ∀ ch ∈ heldChans bus, ch < bus.heap.length := by
  intro ch hch
  obtain ⟨p, hp, rfl⟩ := List.mem_map.mp hch
  exact isOpen_lt (hinv.2.1 p hp)

/-- Under the invariant a record stored under another key holds another channel. -/
theorem held_ne_of_key_ne {bus : UpdateBus α} (hinv : Inv bus) {c : String}
    {uch : UpdateChannel} (hg : mapGet bus.Channels c = some uch)
    {p : String × UpdateChannel} (hp : p ∈ bus.Channels) (hk : p.1 ≠ c) :
    p.2.Ch ≠ uch.Ch := by
  intro e
  have h := List.inj_on_of_nodup_map hinv.2.2 hp (mapGet_some_mem hg) e
  exact hk (by rw [h])

theorem RegisterChannel_inv {bus bus1 : UpdateBus α} {c s : String} {ch : Nat}
    (hinv : Inv bus) (e : RegisterChannel bus c s = .ok (ch, bus1)) : Inv bus1 := by
  obtain ⟨b, eb, hch, hlen, hopen, _, _, hframe⟩ := RegisterChannel_ok bus c s (Inv_prior hinv c)
  rw [eb] at e
  injection e with e
  injection e with e1 e2
  subst e2
  have hdel : ∀ p ∈ mapDelete bus.Channels c, isOpen b.heap p.2.Ch = true := by
    intro p hp
    obtain ⟨hp1, hp2⟩ := mem_mapDelete.mp hp
    have hpo := hinv.2.1 p hp1
    rw [isOpen_congr (hframe p.2.Ch (isOpen_lt hpo)
      (fun uch hg => held_ne_of_key_ne hinv hg hp1 hp2))]
    exact hpo
  refine ⟨?_, ?_, ?_⟩
  · rw [hch, mapSet, List.map_cons, List.nodup_cons]
    refine ⟨?_, mapDelete_keys_nodup c hinv.1⟩
    intro hmem
    obtain ⟨p, hp, hpc⟩ := List.mem_map.mp hmem
    exact (mem_mapDelete.mp hp).2 hpc
  · rw [hch]
    intro p hp
    rcases List.mem_cons.mp hp with h | h
    · subst h; exact hopen
    · exact hdel p h
  · unfold heldChans
    rw [hch, mapSet, List.map_cons, List.nodup_cons]
    refine ⟨?_, ?_⟩
    · intro hmem
      obtain ⟨p, hp, hpc⟩ := List.mem_map.mp hmem
      have hlt := isOpen_lt (hinv.2.1 p (mem_mapDelete.mp hp).1)
      simp only at hpc
      omega
    · exact List.Nodup.sublist (List.Sublist.map _ (List.filter_sublist _)) hinv.2.2

theorem UnregisterChannel_inv {bus bus1 : UpdateBus α} {c : String}
    (hinv : Inv bus) (e : UnregisterChannel bus c = .ok bus1) : Inv bus1 := by
  obtain ⟨b, eb, hch, _, _, hframe⟩ := UnregisterChannel_ok bus c (Inv_prior hinv c)
  rw [eb] at e
  injection e with e
  subst e
  refine ⟨?_, ?_, ?_⟩
  · rw [hch]; exact mapDelete_keys_nodup c hinv.1
  · rw [hch]
    intro p hp
    obtain ⟨hp1, hp2⟩ := mem_mapDelete.mp hp
    rw [isOpen_congr (hframe p.2.Ch (fun uch hg => held_ne_of_key_ne hinv hg hp1 hp2))]
    exact hinv.2.1 p hp1
  · unfold heldChans
    rw [hch]
    exact List.Nodup.sublist (List.Sublist.map _ (List.filter_sublist _)) hinv.2.2

theorem SendUpdate_inv {bus bus1 : UpdateBus α} {sid : String} {u : α}
    (hinv : Inv bus) (e : SendUpdate bus sid u = .ok bus1) : Inv bus1 := by
  obtain ⟨b, eb, hch, _, hopen, _, _⟩ := SendUpdate_ok bus sid u (fun p hp _ => hinv.2.1 p hp)
  rw [eb] at e
  injection e with e
  subst e
  refine ⟨?_, ?_, ?_⟩
  · rw [hch]; exact hinv.1
  · rw [hch]
    intro p hp
    rw [hopen]; exact hinv.2.1 p hp
  · unfold heldChans
    rw [hch]; exact hinv.2.2

/-- Under the invariant every call completes, keeps the invariant, and never
shrinks the channel store. -/
theorem step_inv {bus : UpdateBus α} (hinv : Inv bus) (op : Op α) :
    ∃ bus1, step bus op = .ok bus1 ∧ Inv bus1 ∧ bus.heap.length ≤ bus1.heap.length := by
  cases op with
  | register c s =>
    obtain ⟨b, eb, _, hlen, _⟩ := RegisterChannel_ok bus c s (Inv_prior hinv c)
    exact ⟨b, by simp [step, eb], RegisterChannel_inv hinv eb, by omega⟩
  | unregister c =>
    obtain ⟨b, eb, _, hlen, _⟩ := UnregisterChannel_ok bus c (Inv_prior hinv c)
    exact ⟨b, by simp [step, eb], UnregisterChannel_inv hinv eb, by omega⟩
  | send sid u =>
    obtain ⟨b, eb, _, hlen, _⟩ := SendUpdate_ok bus sid u (fun p hp _ => hinv.2.1 p hp)
    exact ⟨b, by simp [step, eb], SendUpdate_inv hinv eb, by omega⟩

/-- Under the invariant every call sequence completes and keeps the
invariant; every channel the registry held on the way and every channel a
`RegisterChannel` call returned on the way is a reference below the final
size of the store. -/
theorem run_inv (ops : List (Op α)) :
    ∀ {bus : UpdateBus α}, Inv bus →
      ∃ bus1, run bus ops = .ok bus1 ∧ Inv bus1 ∧ bus.heap.length ≤ bus1.heap.length ∧
        (∀ ch ∈ heldAlong bus ops, ch < bus1.heap.length) ∧
        (∀ ch ∈ returnedAlong bus ops, ch < bus1.heap.length) := by
  induction ops with
  | nil =>
    intro bus hinv
    exact ⟨bus, rfl, hinv, le_refl _, Inv_held_lt hinv, by simp [returnedAlong]⟩
  | cons op ops ih =>
    intro bus hinv
    obtain ⟨b, eb, hb, hle⟩ := step_inv hinv op
    obtain ⟨b1, eb1, hb1, hle1, hheld, hret⟩ := ih hb
    refine ⟨b1, by simp [run, eb, eb1], hb1, le_trans hle hle1, ?_, ?_⟩
    · intro ch hch
      simp only [heldAlong, eb, List.mem_append] at hch
      rcases hch with h | h
      · have := Inv_held_lt hinv ch h
        omega
      · exact hheld ch h
    · intro ch hch
      cases op with
      | register c s =>
        obtain ⟨b2, eb2, _, hlen2, _⟩ := RegisterChannel_ok bus c s (Inv_prior hinv c)
        have hb2 : b2 = b := by
          simp only [step, eb2, Except.ok.injEq] at eb
          exact eb
        subst hb2
        simp only [returnedAlong, eb2, List.mem_cons] at hch
        rcases hch with h | h
        · omega
        · exact hret ch h
      | unregister c =>
        simp only [returnedAlong, eb] at hch
        exact hret ch hch
      | send sid u =>
        simp only [returnedAlong, eb] at hch
        exact hret ch hch

end InvFacts

/-! ### Scope matching and delivery -/

section Claims

variable {α : Type}

/-- C1: `uch.Match(sessionId)` is true exactly when `sessionId` is empty or
equals the record's own `SessionId`; in particular the empty scope argument
matches every record, whatever its scope. -/
theorem Match_iff (uch : UpdateChannel) (sessionId : String) :
    (uch.Match sessionId = true ↔ (sessionId = "" ∨ sessionId = uch.SessionId)) ∧
      uch.Match "" = true := by
  constructor
  · unfold UpdateChannel.Match
    by_cases h : sessionId = ""
    · simp [h]
    · simp [h]
  · simp [UpdateChannel.Match]

/-- The record a successful `RegisterChannel(c, s)` leaves under `c`, and
the state of the channel it returns. -/
theorem RegisterChannel_record {bus : UpdateBus α} (hinv : Inv bus) (c s : String) :
    ∃ bus1, RegisterChannel bus c s = .ok (bus.heap.length, bus1) ∧ Inv bus1 ∧
      mapGet bus1.Channels c = some
        { SessionId := s, ClientId := storedClientId bus.Channels c, Ch := bus.heap.length } ∧
      bus1.Channels.filter (fun p => decide (p.1 = c)) = [(c,
        { SessionId := s, ClientId := storedClientId bus.Channels c, Ch := bus.heap.length })] ∧
      isOpen bus1.heap bus.heap.length = true ∧ logOf bus1.heap bus.heap.length = [] := by
  obtain ⟨b, eb, hch, _, hopen, hlog, _⟩ := RegisterChannel_ok bus c s (Inv_prior hinv c)
  refine ⟨b, eb, RegisterChannel_inv hinv eb, ?_, ?_, hopen, hlog⟩
  · rw [hch]; exact mapGet_mapSet_self _ _ _
  · rw [hch]; exact mapSet_entries _ _ _

/-- Under the invariant `SendUpdate` completes and appends the update once
to the channel of every matched record and to no other channel. -/
theorem SendUpdate_delivery {bus : UpdateBus α} (hinv : Inv bus) (sid : String) (u : α) :
    ∃ bus1, SendUpdate bus sid u = .ok bus1 ∧ bus1.Channels = bus.Channels ∧
      ∀ j, logOf bus1.heap j =
        if ∃ p ∈ bus.Channels, p.2.Ch = j ∧ p.2.Match sid = true
        then logOf bus.heap j ++ [u] else logOf bus.heap j := by
  obtain ⟨b, eb, hch, _, _, _, hlog⟩ := SendUpdate_ok bus sid u (fun p hp _ => hinv.2.1 p hp)
  refine ⟨b, eb, hch, ?_⟩
  intro j
  rw [hlog j, matchCount_of_nodup sid j bus.Channels hinv.2.2]
  by_cases h : ∃ p ∈ bus.Channels, p.2.Ch = j ∧ p.2.Match sid = true
  · simp [h]
  · simp [h]

/-- Delivery on the channel of the record stored under a given key. -/
theorem SendUpdate_delivery_at {bus : UpdateBus α} (hinv : Inv bus) {c : String}
    {uch : UpdateChannel} (hg : mapGet bus.Channels c = some uch) (sid : String) (u : α) :
    ∃ bus1, SendUpdate bus sid u = .ok bus1 ∧ bus1.Channels = bus.Channels ∧
      logOf bus1.heap uch.Ch =
        if uch.Match sid = true then logOf bus.heap uch.Ch ++ [u] else logOf bus.heap uch.Ch := by
  obtain ⟨b, eb, hch, hlog⟩ := SendUpdate_delivery hinv sid u
  refine ⟨b, eb, hch, ?_⟩
  rw [hlog uch.Ch]
  have hmem := mapGet_some_mem hg
  by_cases hm : uch.Match sid = true
  · have : ∃ p ∈ bus.Channels, p.2.Ch = uch.Ch ∧ p.2.Match sid = true := ⟨_, hmem, rfl, hm⟩
    simp [this, hm]
  · have : ¬ ∃ p ∈ bus.Channels, p.2.Ch = uch.Ch ∧ p.2.Match sid = true := by
      rintro ⟨p, hp, hpc, hpm⟩
      have e := List.inj_on_of_nodup_map hinv.2.2 hp hmem hpc
      subst e
      exact hm hpm
    simp [this, hm]

/-- C2: on a bus satisfying the registry invariant, after
`RegisterChannel(c, s)` the calls `SendUpdate("", u)` and `SendUpdate(s, u)`
each complete and put `u` itself exactly once on the current channel of `c`,
and `SendUpdate(s2, u)` for another scope `s2` (not the empty scope of the
first clause), with `s2 ≠ s` and `s ≠ ""`, completes and puts nothing on it.
More generally one `SendUpdate(sid, u)` appends one copy of `u` to the
channel of each record that matches `sid` and leaves every other channel as
it was. -/
theorem SendUpdate_after_RegisterChannel (bus : UpdateBus α) (hinv : Inv bus)
    (c s : String) (u : α) :
    (∃ ch bus1 uch, RegisterChannel bus c s = .ok (ch, bus1) ∧
      mapGet bus1.Channels c = some uch ∧ uch.Ch = ch ∧
      (∃ b2, SendUpdate bus1 "" u = .ok b2 ∧ logOf b2.heap ch = logOf bus1.heap ch ++ [u]) ∧
      (∃ b2, SendUpdate bus1 s u = .ok b2 ∧ logOf b2.heap ch = logOf bus1.heap ch ++ [u]) ∧
      (∀ s2, s2 ≠ "" → s2 ≠ s → s ≠ "" →
        ∃ b2, SendUpdate bus1 s2 u = .ok b2 ∧ logOf b2.heap ch = logOf bus1.heap ch)) ∧
    (∀ sid, ∃ b2, SendUpdate bus sid u = .ok b2 ∧
      ∀ j, logOf b2.heap j =
        if ∃ p ∈ bus.Channels, p.2.Ch = j ∧ p.2.Match sid = true
        then logOf bus.heap j ++ [u] else logOf bus.heap j) := by
  constructor
  · obtain ⟨b1, e1, hinv1, hg, _, _, _⟩ := RegisterChannel_record hinv c s
    refine ⟨bus.heap.length, b1, _, e1, hg, rfl, ?_, ?_, ?_⟩
    · obtain ⟨b2, e2, _, hlog⟩ := SendUpdate_delivery_at hinv1 hg "" u
      exact ⟨b2, e2, by simpa [UpdateChannel.Match] using hlog⟩
    · obtain ⟨b2, e2, _, hlog⟩ := SendUpdate_delivery_at hinv1 hg s u
      exact ⟨b2, e2, by simpa [UpdateChannel.Match] using hlog⟩
    · intro s2 h2 h1 _
      obtain ⟨b2, e2, _, hlog⟩ := SendUpdate_delivery_at hinv1 hg s2 u
      exact ⟨b2, e2, by simpa [UpdateChannel.Match, h1, h2] using hlog⟩
  · intro sid
    obtain ⟨b2, e2, _, hlog⟩ := SendUpdate_delivery hinv sid u
    exact ⟨b2, e2, hlog⟩

/-- C3, as stated, fails: client "c" is registered with the empty scope on
the empty bus; its record does not match the scope argument "sess1", and
`SendUpdate("sess1", 7)` completes without delivering anything on its
channel. -/
theorem SendUpdate_scoped_misses_unscoped_client :
    ∃ b1 b2 uch, RegisterChannel (MakeUpdateBus : UpdateBus Nat) "c" "" = .ok (0, b1) ∧
      mapGet b1.Channels "c" = some uch ∧ uch.Ch = 0 ∧ uch.Match "sess1" = false ∧
      SendUpdate b1 "sess1" 7 = .ok b2 ∧ logOf b2.heap 0 = [] :=
  ⟨_, _, _, rfl, rfl, rfl, by decide, rfl, rfl⟩

/-- C3 (amended): on a bus satisfying the registry invariant, after
`RegisterChannel(c, "")` the record of `c` matches a scope argument `sid`
exactly when `sid` is empty, and `SendUpdate(sid, u)` completes, delivering
`u` once on the channel of `c` when `sid` is empty and nothing otherwise. -/
theorem SendUpdate_to_unscoped_client (bus : UpdateBus α) (hinv : Inv bus)
    (c sid : String) (u : α) :
    ∃ ch bus1 uch, RegisterChannel bus c "" = .ok (ch, bus1) ∧
      mapGet bus1.Channels c = some uch ∧ uch.Ch = ch ∧ uch.SessionId = "" ∧
      (uch.Match sid = true ↔ sid = "") ∧
      ∃ b2, SendUpdate bus1 sid u = .ok b2 ∧
        logOf b2.heap ch =
          if sid = "" then logOf bus1.heap ch ++ [u] else logOf bus1.heap ch := by
  obtain ⟨b1, e1, hinv1, hg, _, _, _⟩ := RegisterChannel_record hinv c ""
  obtain ⟨b2, e2, _, hlog⟩ := SendUpdate_delivery_at hinv1 hg sid u
  refine ⟨bus.heap.length, b1, _, e1, hg, rfl, rfl, ?_, b2, e2, ?_⟩
  · by_cases h : sid = ""
    · simp [UpdateChannel.Match, h]
    · simp [UpdateChannel.Match, h]
  · by_cases h : sid = ""
    · simpa [UpdateChannel.Match, h] using hlog
    · simpa [UpdateChannel.Match, h] using hlog

/-- C4: on a bus satisfying the registry invariant, `RegisterChannel(c, s)`
completes and afterwards the registry has exactly one entry under key `c`;
that record has scope `s`, its channel is the channel that was returned, and
that channel is open.  The statement does not depend on whether `c` had a
record before. -/
theorem RegisterChannel_post (bus : UpdateBus α) (hinv : Inv bus) (c s : String) :
    ∃ ch bus1 uch, RegisterChannel bus c s = .ok (ch, bus1) ∧
      bus1.Channels.filter (fun p => decide (p.1 = c)) = [(c, uch)] ∧
      mapGet bus1.Channels c = some uch ∧
      uch.SessionId = s ∧ uch.Ch = ch ∧ isOpen bus1.heap ch = true := by
  obtain ⟨b1, e1, _, hg, hf, ho, _⟩ := RegisterChannel_record hinv c s
  exact ⟨bus.heap.length, b1, _, e1, hf, hg, rfl, rfl, ho⟩

/-- C5: after any call sequence on the empty bus, `RegisterChannel(c, s)`
completes and returns a channel that is open, that the registry holds in no
state passed so far (the current one included), and that no earlier
`RegisterChannel` call returned; a second call for the same client id
returns yet another channel, open as well. -/
theorem RegisterChannel_fresh (ops : List (Op α)) (c s : String) :
    ∃ bus ch bus1, run MakeUpdateBus ops = .ok bus ∧
      RegisterChannel bus c s = .ok (ch, bus1) ∧
      isOpen bus1.heap ch = true ∧
      ch ∉ heldAlong (MakeUpdateBus : UpdateBus α) ops ∧
      ch ∉ returnedAlong (MakeUpdateBus : UpdateBus α) ops ∧
      ∀ s2, ∃ ch2 bus2, RegisterChannel bus1 c s2 = .ok (ch2, bus2) ∧ ch2 ≠ ch ∧
        isOpen bus2.heap ch2 = true := by
  obtain ⟨bus, erun, hinv, _, hheld, hret⟩ := run_inv ops (Inv_MakeUpdateBus (α := α))
  obtain ⟨b1, e1, _, hlen, ho, _, _⟩ := RegisterChannel_ok bus c s (Inv_prior hinv c)
  have hinv1 := RegisterChannel_inv hinv e1
  refine ⟨bus, bus.heap.length, b1, erun, e1, ho, ?_, ?_, ?_⟩
  · intro h; exact lt_irrefl _ (hheld _ h)
  · intro h; exact lt_irrefl _ (hret _ h)
  · intro s2
    obtain ⟨b2, e2, _, _, ho2, _, _⟩ := RegisterChannel_ok b1 c s2 (Inv_prior hinv1 c)
    exact ⟨b1.heap.length, b2, e2, by omega, ho2⟩

/-- C6: on a bus satisfying the registry invariant in which `c` has a record
with channel `ch`, `RegisterChannel(c, s2)` completes; afterwards `ch` is
closed, no record of the registry holds `ch`, and the record under `c` has
scope `s2` and a channel different from `ch`. -/
theorem RegisterChannel_supersedes (bus : UpdateBus α) (hinv : Inv bus) (c s2 : String)
    (uch0 : UpdateChannel) (hg : mapGet bus.Channels c = some uch0) :
    ∃ ch1 bus1 uch1, RegisterChannel bus c s2 = .ok (ch1, bus1) ∧
      isClosed bus1.heap uch0.Ch = true ∧ uch0.Ch ∉ heldChans bus1 ∧
      mapGet bus1.Channels c = some uch1 ∧ uch1.SessionId = s2 ∧ uch1.Ch = ch1 ∧
      uch1.Ch ≠ uch0.Ch := by
  obtain ⟨b1, e1, hch, _, _, _, hold, _⟩ := RegisterChannel_ok bus c s2 (Inv_prior hinv c)
  have hinv1 := RegisterChannel_inv hinv e1
  have hcl := (hold uch0 hg).1
  have hlt : uch0.Ch < bus.heap.length := isOpen_lt (Inv_prior hinv c uch0 hg)
  refine ⟨bus.heap.length, b1, ⟨s2, storedClientId bus.Channels c, bus.heap.length⟩, e1, hcl,
    ?_, ?_, rfl, rfl, ?_⟩
  · intro hmem
    obtain ⟨p, hp, hpc⟩ := List.mem_map.mp hmem
    have h1 := hinv1.2.1 p hp
    rw [hpc, isClosed_not_isOpen hcl] at h1
    cases h1
  · rw [hch]; exact mapGet_mapSet_self _ _ _
  · simp only; omega

/-- C7: on a bus satisfying the registry invariant in which `c` has a record
with channel `ch`, `UnregisterChannel(c)` completes; afterwards `ch` is
closed and the registry has no entry under key `c`. -/
theorem UnregisterChannel_removes (bus : UpdateBus α) (hinv : Inv bus) (c : String)
    (uch : UpdateChannel) (hg : mapGet bus.Channels c = some uch) :
    ∃ bus1, UnregisterChannel bus c = .ok bus1 ∧ isClosed bus1.heap uch.Ch = true ∧
      mapGet bus1.Channels c = none ∧ ∀ p ∈ bus1.Channels, p.1 ≠ c := by
  obtain ⟨b1, e1, hch, _, hold, _⟩ := UnregisterChannel_ok bus c (Inv_prior hinv c)
  have hnone : mapGet b1.Channels c = none := by
    rw [hch]; exact mapGet_mapDelete_self _ _
  exact ⟨b1, e1, (hold uch hg).1, hnone, mapGet_none_iff.mp hnone⟩

/-- C8: on any bus, when `c` has no record `UnregisterChannel(c)` completes
without a panic and returns the bus exactly as it was: same map, same
channel store, no channel closed. -/
theorem UnregisterChannel_absent (bus : UpdateBus α) (c : String)
    (hg : mapGet bus.Channels c = none) : UnregisterChannel bus c = .ok bus := by
  simp [UnregisterChannel, hg]

/-- C9: after any call sequence on the empty bus, `UnregisterChannel(c)`
completes, leaves no record under `c`, and a second `UnregisterChannel(c)`
completes as well, closing nothing and returning the very state the first
call produced. -/
theorem UnregisterChannel_idempotent (ops : List (Op α)) (c : String) :
    ∃ bus bus1, run MakeUpdateBus ops = .ok bus ∧ UnregisterChannel bus c = .ok bus1 ∧
      mapGet bus1.Channels c = none ∧ UnregisterChannel bus1 c = .ok bus1 := by
  obtain ⟨bus, erun, hinv, _⟩ := run_inv ops (Inv_MakeUpdateBus (α := α))
  obtain ⟨b1, e1, hch, _⟩ := UnregisterChannel_ok bus c (Inv_prior hinv c)
  have hnone : mapGet b1.Channels c = none := by
    rw [hch]; exact mapGet_mapDelete_self _ _
  exact ⟨bus, b1, erun, e1, hnone, by simp [UnregisterChannel, hnone]⟩

/-- C10: every sequence of `RegisterChannel`, `UnregisterChannel` and
`SendUpdate` calls on `MakeUpdateBus()` completes, and in the state it
reaches every channel stored in a record of the `Channels` map exists and is
open, none is closed. -/
theorem registry_channels_open (ops : List (Op α)) :
    ∃ bus, run MakeUpdateBus ops = .ok bus ∧
      ∀ p ∈ bus.Channels, isOpen bus.heap p.2.Ch = true ∧ isClosed bus.heap p.2.Ch = false := by
  obtain ⟨bus, erun, hinv, _⟩ := run_inv ops (Inv_MakeUpdateBus (α := α))
  exact ⟨bus, erun, fun p hp => ⟨hinv.2.1 p hp, isOpen_not_isClosed (hinv.2.1 p hp)⟩⟩

/-! ### The theorems at the sample bus -/

/-- C2 at the sample bus: client "a" re-registers with scope "sess2". -/
theorem SendUpdate_after_RegisterChannel_witness :
    Inv sampleBus ∧
    ((∃ ch bus1 uch, RegisterChannel sampleBus "a" "sess2" = .ok (ch, bus1) ∧
      mapGet bus1.Channels "a" = some uch ∧ uch.Ch = ch ∧
      (∃ b2, SendUpdate bus1 "" 7 = .ok b2 ∧ logOf b2.heap ch = logOf bus1.heap ch ++ [7]) ∧
      (∃ b2, SendUpdate bus1 "sess2" 7 = .ok b2 ∧
        logOf b2.heap ch = logOf bus1.heap ch ++ [7]) ∧
      (∀ s2, s2 ≠ "" → s2 ≠ "sess2" → ("sess2" : String) ≠ "" →
        ∃ b2, SendUpdate bus1 s2 7 = .ok b2 ∧ logOf b2.heap ch = logOf bus1.heap ch)) ∧
    (∀ sid, ∃ b2, SendUpdate sampleBus sid 7 = .ok b2 ∧
      ∀ j, logOf b2.heap j =
        if ∃ p ∈ sampleBus.Channels, p.2.Ch = j ∧ p.2.Match sid = true
        then logOf sampleBus.heap j ++ [7] else logOf sampleBus.heap j)) :=
  ⟨by decide, SendUpdate_after_RegisterChannel sampleBus (by decide) "a" "sess2" 7⟩

/-- C3 (amended) at the sample bus: a new client "c" registers with the empty
scope and "sess1" is broadcast. -/
theorem SendUpdate_to_unscoped_client_witness :
    Inv sampleBus ∧
    ∃ ch bus1 uch, RegisterChannel sampleBus "c" "" = .ok (ch, bus1) ∧
      mapGet bus1.Channels "c" = some uch ∧ uch.Ch = ch ∧ uch.SessionId = "" ∧
      (uch.Match "sess1" = true ↔ ("sess1" : String) = "") ∧
      ∃ b2, SendUpdate bus1 "sess1" 7 = .ok b2 ∧
        logOf b2.heap ch =
          if ("sess1" : String) = "" then logOf bus1.heap ch ++ [7] else logOf bus1.heap ch :=
  ⟨by decide, SendUpdate_to_unscoped_client sampleBus (by decide) "c" "sess1" 7⟩

/-- C4 at the sample bus: client "a", which has a record, registers again. -/
theorem RegisterChannel_post_witness :
    Inv sampleBus ∧
    ∃ ch bus1 uch, RegisterChannel sampleBus "a" "sess2" = .ok (ch, bus1) ∧
      bus1.Channels.filter (fun p => decide (p.1 = "a")) = [("a", uch)] ∧
      mapGet bus1.Channels "a" = some uch ∧
      uch.SessionId = "sess2" ∧ uch.Ch = ch ∧ isOpen bus1.heap ch = true :=
  ⟨by decide, RegisterChannel_post sampleBus (by decide) "a" "sess2"⟩

/-- C6 at the sample bus: client "a" holds channel 0 and registers again. -/
theorem RegisterChannel_supersedes_witness :
    Inv sampleBus ∧
    mapGet sampleBus.Channels "a" = some { SessionId := "sess1", ClientId := "a", Ch := 0 } ∧
    ∃ ch1 bus1 uch1, RegisterChannel sampleBus "a" "sess2" = .ok (ch1, bus1) ∧
      isClosed bus1.heap 0 = true ∧ 0 ∉ heldChans bus1 ∧
      mapGet bus1.Channels "a" = some uch1 ∧ uch1.SessionId = "sess2" ∧ uch1.Ch = ch1 ∧
      uch1.Ch ≠ 0 :=
  ⟨by decide, rfl,
    RegisterChannel_supersedes sampleBus (by decide) "a" "sess2"
      { SessionId := "sess1", ClientId := "a", Ch := 0 } rfl⟩

/-- C7 at the sample bus: client "b" holds channel 2 and unregisters. -/
theorem UnregisterChannel_removes_witness :
    Inv sampleBus ∧
    mapGet sampleBus.Channels "b" = some { SessionId := "", ClientId := "b", Ch := 2 } ∧
    ∃ bus1, UnregisterChannel sampleBus "b" = .ok bus1 ∧ isClosed bus1.heap 2 = true ∧
      mapGet bus1.Channels "b" = none ∧ ∀ p ∈ bus1.Channels, p.1 ≠ "b" :=
  ⟨by decide, rfl,
    UnregisterChannel_removes sampleBus (by decide) "b"
      { SessionId := "", ClientId := "b", Ch := 2 } rfl⟩

/-- C8 at the sample bus: client "z" was never registered. -/
theorem UnregisterChannel_absent_witness :
    mapGet sampleBus.Channels "z" = none ∧ UnregisterChannel sampleBus "z" = .ok sampleBus :=
  ⟨rfl, UnregisterChannel_absent sampleBus "z" rfl⟩

end Claims

/-! ### Closed channels stay closed -/

section ClosedFacts

variable {α : Type}

theorem isClosed_lt {h : Heap α} {i : Nat} (hi : isClosed h i = true) : i < h.length := by
  unfold isClosed at hi
  cases hc : h[i]? with
  | none => rw [hc] at hi; cases hi
  | some c => exact (List.getElem?_eq_some.mp hc).1

/-- Under the invariant no record holds a closed channel, so no scope counts it. -/
theorem matchCount_closed {bus : UpdateBus α} (hinv : Inv bus) (sid : String) {j : Nat}
    (hj : isClosed bus.heap j = true) : matchCount sid j bus.Channels = 0 := by
  unfold matchCount
  rw [List.countP_eq_zero]
  intro p hp
  have ho := hinv.2.1 p hp
  have hne : p.2.Ch ≠ j := by
    intro e
    rw [e, isClosed_not_isOpen hj] at ho
    cases ho
  simp [hne]

/-- Under the invariant a call completes, keeps the invariant, and leaves
every channel that is already closed closed and with the same deliveries. -/
theorem step_closed_frozen {bus : UpdateBus α} (hinv : Inv bus) (op : Op α) :
    ∃ b, step bus op = .ok b ∧ Inv b ∧
      ∀ j, isClosed bus.heap j = true →
        isClosed b.heap j = true ∧ logOf b.heap j = logOf bus.heap j := by
  have hne : ∀ (c : String) (j : Nat), isClosed bus.heap j = true →
      ∀ uch, mapGet bus.Channels c = some uch → j ≠ uch.Ch := by
    intro c j hj uch hg e
    have ho := Inv_prior hinv c uch hg
    rw [← e, isClosed_not_isOpen hj] at ho
    cases ho
  cases op with
  | register c s =>
    obtain ⟨b, eb, _, _, _, _, _, hframe⟩ := RegisterChannel_ok bus c s (Inv_prior hinv c)
    refine ⟨b, by simp [step, eb], RegisterChannel_inv hinv eb, ?_⟩
    intro j hj
    have e := hframe j (isClosed_lt hj) (hne c j hj)
    exact ⟨(isClosed_congr e).trans hj, logOf_congr e⟩
  | unregister c =>
    obtain ⟨b, eb, _, _, _, hframe⟩ := UnregisterChannel_ok bus c (Inv_prior hinv c)
    refine ⟨b, by simp [step, eb], UnregisterChannel_inv hinv eb, ?_⟩
    intro j hj
    have e := hframe j (hne c j hj)
    exact ⟨(isClosed_congr e).trans hj, logOf_congr e⟩
  | send sid u =>
    obtain ⟨b, eb, _, _, _, hcl, hlog⟩ :=
      SendUpdate_ok bus sid u (fun p hp _ => hinv.2.1 p hp)
    refine ⟨b, by simp [step, eb], SendUpdate_inv hinv eb, ?_⟩
    intro j hj
    refine ⟨(hcl j).trans hj, ?_⟩
    rw [hlog j, matchCount_closed hinv sid hj]
    simp

/-- The same along a whole call sequence. -/
theorem run_closed_frozen (ops : List (Op α)) :
    ∀ {bus : UpdateBus α}, Inv bus →
      ∃ b, run bus ops = .ok b ∧ Inv b ∧
        ∀ j, isClosed bus.heap j = true →
          isClosed b.heap j = true ∧ logOf b.heap j = logOf bus.heap j := by
  induction ops with
  | nil =>
    intro bus hinv
    exact ⟨bus, rfl, hinv, fun j hj => ⟨hj, rfl⟩⟩
  | cons op ops ih =>
    intro bus hinv
    obtain ⟨b, eb, hb, hfr⟩ := step_closed_frozen hinv op
    obtain ⟨b1, eb1, hb1, hfr1⟩ := ih hb
    refine ⟨b1, by simp [run, eb, eb1], hb1, ?_⟩
    intro j hj
    obtain ⟨h1, h2⟩ := hfr j hj
    obtain ⟨h3, h4⟩ := hfr1 j h1
    exact ⟨h3, h4.trans h2⟩

theorem run_append (ops1 ops2 : List (Op α)) (bus : UpdateBus α) :
    run bus (ops1 ++ ops2) =
      match run bus ops1 with
      | .error e => .error e
      | .ok b => run b ops2 := by
  induction ops1 generalizing bus with
  | nil => rfl
  | cons op ops ih =>
    simp only [List.cons_append, run]
    cases step bus op with
    | error e => rfl
    | ok b => exact ih b

/-- Under the invariant the channel a call closes is open before the call
and closed after it. -/
theorem closedBy_spec {bus b : UpdateBus α} (hinv : Inv bus) {op : Op α}
    (eb : step bus op = .ok b) :
    ∀ ch ∈ closedBy bus op, isOpen bus.heap ch = true ∧ isClosed b.heap ch = true := by
  intro ch hch
  cases op with
  | register c s =>
    obtain ⟨b1, e1, _, _, _, _, hold, _⟩ := RegisterChannel_ok bus c s (Inv_prior hinv c)
    have hb : b1 = b := by
      simp only [step, e1, Except.ok.injEq] at eb
      exact eb
    subst hb
    cases hg : mapGet bus.Channels c with
    | none => simp [closedBy, hg] at hch
    | some uch =>
      simp only [closedBy, hg, List.mem_singleton] at hch
      subst hch
      exact ⟨Inv_prior hinv c uch hg, (hold uch hg).1⟩
  | unregister c =>
    obtain ⟨b1, e1, _, _, hold, _⟩ := UnregisterChannel_ok bus c (Inv_prior hinv c)
    have hb : b1 = b := by
      simp only [step, e1, Except.ok.injEq] at eb
      exact eb
    subst hb
    cases hg : mapGet bus.Channels c with
    | none => simp [closedBy, hg] at hch
    | some uch =>
      simp only [closedBy, hg, List.mem_singleton] at hch
      subst hch
      exact ⟨Inv_prior hinv c uch hg, (hold uch hg).1⟩
  | send sid u => simp [closedBy] at hch

theorem closedBy_nodup (bus : UpdateBus α) (op : Op α) : (closedBy bus op).Nodup := by
  cases op with
  | register c s =>
    cases hg : mapGet bus.Channels c <;> simp [closedBy, hg]
  | unregister c =>
    cases hg : mapGet bus.Channels c <;> simp [closedBy, hg]
  | send sid u => simp [closedBy]

/-- Under the invariant every channel closed along a call sequence was not
closed at its start, and no channel is closed twice. -/
theorem closesAlong_nodup (ops : List (Op α)) :
    ∀ {bus : UpdateBus α}, Inv bus →
      (∀ ch ∈ closesAlong bus ops, isClosed bus.heap ch = false) ∧
        (closesAlong bus ops).Nodup := by
  induction ops with
  | nil =>
    intro bus _
    simp [closesAlong]
  | cons op ops ih =>
    intro bus hinv
    obtain ⟨b, eb, hb, hfr⟩ := step_closed_frozen hinv op
    obtain ⟨ih1, ih2⟩ := ih hb
    have hspec := closedBy_spec hinv eb
    simp only [closesAlong, eb]
    constructor
    · intro ch hch
      rcases List.mem_append.mp hch with h | h
      · exact isOpen_not_isClosed (hspec ch h).1
      · cases hc : isClosed bus.heap ch with
        | false => rfl
        | true =>
          have := (hfr ch hc).1
          rw [ih1 ch h] at this
          cases this
    · rw [List.nodup_append]
      refine ⟨closedBy_nodup bus op, ih2, ?_⟩
      intro ch h1 h2
      have := (hspec ch h1).2
      rw [ih1 ch h2] at this
      cases this

end ClosedFacts

/-! ### Frame of the operations and delivery order -/

section FrameFacts

variable {α : Type}

theorem mapDelete_idem (m : List (String × UpdateChannel)) (k : String) :
    mapDelete (mapDelete m k) k = mapDelete m k := by
  apply mapDelete_of_none
  exact mapGet_mapDelete_self m k

theorem mapDelete_mapSet (m : List (String × UpdateChannel)) (k : String)
    (v : UpdateChannel) : mapDelete (mapSet m k v) k = mapDelete m k := by
  have h : mapDelete ((k, v) :: mapDelete m k) k = mapDelete (mapDelete m k) k := by
    simp [mapDelete]
  rw [mapSet, h, mapDelete_idem]

/-- Under the invariant `RegisterChannel(c, s)` completes and changes
neither the entries stored under other keys nor the channels they hold. -/
theorem RegisterChannel_frame {bus : UpdateBus α} (hinv : Inv bus) (c s : String) :
    ∃ b, RegisterChannel bus c s = .ok (bus.heap.length, b) ∧ Inv b ∧
      mapDelete b.Channels c = mapDelete bus.Channels c ∧
      ∀ c1, c1 ≠ c → mapGet b.Channels c1 = mapGet bus.Channels c1 ∧
        ∀ uch1, mapGet bus.Channels c1 = some uch1 →
          b.heap[uch1.Ch]? = bus.heap[uch1.Ch]? := by
  obtain ⟨b, eb, hch, _, _, _, _, hframe⟩ := RegisterChannel_ok bus c s (Inv_prior hinv c)
  refine ⟨b, eb, RegisterChannel_inv hinv eb, ?_, ?_⟩
  · rw [hch]; exact mapDelete_mapSet _ _ _
  · intro c1 hne
    refine ⟨?_, ?_⟩
    · rw [hch]; exact mapGet_mapSet_ne _ hne
    · intro uch1 hg1
      have hmem := mapGet_some_mem hg1
      exact hframe _ (isOpen_lt (hinv.2.1 _ hmem))
        (fun uch hg => held_ne_of_key_ne hinv hg hmem hne)

/-- Under the invariant `UnregisterChannel(c)` completes and changes neither
the entries stored under other keys nor the channels they hold. -/
theorem UnregisterChannel_frame {bus : UpdateBus α} (hinv : Inv bus) (c : String) :
    ∃ b, UnregisterChannel bus c = .ok b ∧ Inv b ∧
      mapDelete b.Channels c = mapDelete bus.Channels c ∧
      ∀ c1, c1 ≠ c → mapGet b.Channels c1 = mapGet bus.Channels c1 ∧
        ∀ uch1, mapGet bus.Channels c1 = some uch1 →
          b.heap[uch1.Ch]? = bus.heap[uch1.Ch]? := by
  obtain ⟨b, eb, hch, _, _, hframe⟩ := UnregisterChannel_ok bus c (Inv_prior hinv c)
  refine ⟨b, eb, UnregisterChannel_inv hinv eb, ?_, ?_⟩
  · rw [hch]; exact mapDelete_idem _ _
  · intro c1 hne
    refine ⟨?_, ?_⟩
    · rw [hch]; exact mapGet_mapDelete_ne hne
    · intro uch1 hg1
      have hmem := mapGet_some_mem hg1
      exact hframe _ (fun uch hg => held_ne_of_key_ne hinv hg hmem hne)

/-- While no call registers or unregisters `c`, the record of `c` stays and
its channel receives, in call order, the updates of the `SendUpdate` calls
that match it, and nothing else. -/
theorem run_delivery {c : String} {uch : UpdateChannel} (ops : List (Op α)) :
    ∀ {bus : UpdateBus α}, Inv bus → mapGet bus.Channels c = some uch →
      (∀ op ∈ ops, touches c op = false) →
      ∃ b, run bus ops = .ok b ∧ Inv b ∧ mapGet b.Channels c = some uch ∧
        logOf b.heap uch.Ch = logOf bus.heap uch.Ch ++ deliveredTo uch ops := by
  induction ops with
  | nil =>
    intro bus hinv hg _
    exact ⟨bus, rfl, hinv, hg, by simp [deliveredTo]⟩
  | cons op ops ih =>
    intro bus hinv hg hops
    have hop := hops op (List.mem_cons_self _ _)
    have hrest : ∀ o ∈ ops, touches c o = false :=
      fun o ho => hops o (List.mem_cons_of_mem _ ho)
    cases op with
    | register c1 s =>
      have hne : c ≠ c1 := by
        intro e; simp [touches, e] at hop
      obtain ⟨b, eb, hb, _, hfr⟩ := RegisterChannel_frame hinv c1 s
      obtain ⟨hget, hcell⟩ := hfr c hne
      obtain ⟨b1, eb1, hb1, hg1, hlog1⟩ := ih hb (hget.trans hg) hrest
      refine ⟨b1, by simp [run, step, eb, eb1], hb1, hg1, ?_⟩
      rw [hlog1, logOf_congr (hcell uch hg)]
      rfl
    | unregister c1 =>
      have hne : c ≠ c1 := by
        intro e; simp [touches, e] at hop
      obtain ⟨b, eb, hb, _, hfr⟩ := UnregisterChannel_frame hinv c1
      obtain ⟨hget, hcell⟩ := hfr c hne
      obtain ⟨b1, eb1, hb1, hg1, hlog1⟩ := ih hb (hget.trans hg) hrest
      refine ⟨b1, by simp [run, step, eb, eb1], hb1, hg1, ?_⟩
      rw [hlog1, logOf_congr (hcell uch hg)]
      rfl
    | send sid u =>
      obtain ⟨b, eb, hch, hlog⟩ := SendUpdate_delivery_at hinv hg sid u
      have hb := SendUpdate_inv hinv eb
      obtain ⟨b1, eb1, hb1, hg1, hlog1⟩ := ih hb (by rw [hch]; exact hg) hrest
      refine ⟨b1, by simp [run, step, eb, eb1], hb1, hg1, ?_⟩
      rw [hlog1, hlog]
      by_cases hm : uch.Match sid = true
      · simp [deliveredTo, hm]
      · simp [deliveredTo, hm]

theorem touches_sendOps (c : String) (sends : List (String × α)) :
    ∀ op ∈ sendOps sends, touches c op = false := by
  intro op hop
  obtain ⟨p, _, rfl⟩ := List.mem_map.mp hop
  rfl

theorem deliveredTo_sendOps (uch : UpdateChannel) (sends : List (String × α)) :
    deliveredTo uch (sendOps sends) =
      (sends.filter (fun p => uch.Match p.1)).map Prod.snd := by
  induction sends with
  | nil => rfl
  | cons p rest ih =>
    unfold sendOps at ih ⊢
    by_cases hm : uch.Match p.1 = true
    · simp [deliveredTo, List.filter_cons, hm, ih]
    · simp [deliveredTo, List.filter_cons, hm, ih]

end FrameFacts

/-! ### Safety, the three-client scenario, order and frame -/

section BusClaims

variable {α : Type}

/-- C11: every sequence of `RegisterChannel`, `UnregisterChannel` and
`SendUpdate` calls on `MakeUpdateBus()` runs to its end without a panic, at
every cut point of the sequence; no channel is closed twice along it, and a
channel that is closed at the cut point is still closed at the end and has
received nothing in between. -/
theorem bus_never_panics (ops1 ops2 : List (Op α)) :
    ∃ b1 b2, run MakeUpdateBus ops1 = .ok b1 ∧ run b1 ops2 = .ok b2 ∧
      run MakeUpdateBus (ops1 ++ ops2) = .ok b2 ∧
      (closesAlong (MakeUpdateBus : UpdateBus α) (ops1 ++ ops2)).Nodup ∧
      ∀ j, isClosed b1.heap j = true →
        isClosed b2.heap j = true ∧ logOf b2.heap j = logOf b1.heap j := by
  obtain ⟨b1, e1, hinv1, _⟩ := run_closed_frozen ops1 (Inv_MakeUpdateBus (α := α))
  obtain ⟨b2, e2, _, hfr⟩ := run_closed_frozen ops2 hinv1
  refine ⟨b1, b2, e1, e2, ?_, (closesAlong_nodup (ops1 ++ ops2) Inv_MakeUpdateBus).2, hfr⟩
  rw [run_append, e1]
  exact e2

/-- C12: on the empty bus register "A" with scope "sess1", "B" with scope
"sess2" and "C" with the empty scope (channels 0, 1 and 2).
`SendUpdate("sess1", u1)` delivers `u1` on the channel of "A" only;
`SendUpdate("", u2)` then delivers `u2` on all three channels; after
`UnregisterChannel("B")`, `SendUpdate("sess2", u3)` changes no channel. -/
theorem scenario_three_clients (u1 u2 u3 : α) :
    ∃ b3 b4 b5 b6,
      run MakeUpdateBus
        [Op.register "A" "sess1", Op.register "B" "sess2", Op.register "C" ""] = .ok b3 ∧
      (mapGet b3.Channels "A").map (fun r => r.Ch) = some 0 ∧
      (mapGet b3.Channels "B").map (fun r => r.Ch) = some 1 ∧
      (mapGet b3.Channels "C").map (fun r => r.Ch) = some 2 ∧
      SendUpdate b3 "sess1" u1 = .ok b4 ∧
      logOf b4.heap 0 = [u1] ∧ logOf b4.heap 1 = [] ∧ logOf b4.heap 2 = [] ∧
      SendUpdate b4 "" u2 = .ok b5 ∧
      logOf b5.heap 0 = [u1, u2] ∧ logOf b5.heap 1 = [u2] ∧ logOf b5.heap 2 = [u2] ∧
      UnregisterChannel b5 "B" = .ok b6 ∧ isClosed b6.heap 1 = true ∧
      SendUpdate b6 "sess2" u3 = .ok b6 :=
  ⟨_, _, _, _, rfl, rfl, rfl, rfl, rfl, rfl, rfl, rfl, rfl, rfl, rfl, rfl, rfl, rfl, rfl⟩

/-- C13: on a bus satisfying the registry invariant in which `c` has a
record, any sequence of calls `SendUpdate(sid_1, u_1), ..., SendUpdate(sid_n, u_n)`
completes, keeps the record of `c`, and appends to the channel of `c`
exactly the `u_i` whose `sid_i` the record matches, in call order, each
once.  The same holds when calls that register or unregister other clients
are interleaved with the sends. -/
theorem SendUpdate_order (bus : UpdateBus α) (hinv : Inv bus) (c : String)
    (uch : UpdateChannel) (hg : mapGet bus.Channels c = some uch) :
    (∀ sends : List (String × α),
      ∃ b, run bus (sendOps sends) = .ok b ∧ mapGet b.Channels c = some uch ∧
        logOf b.heap uch.Ch =
          logOf bus.heap uch.Ch ++ (sends.filter (fun p => uch.Match p.1)).map Prod.snd) ∧
    (∀ ops : List (Op α), (∀ op ∈ ops, touches c op = false) →
      ∃ b, run bus ops = .ok b ∧ mapGet b.Channels c = some uch ∧
        logOf b.heap uch.Ch = logOf bus.heap uch.Ch ++ deliveredTo uch ops) := by
  constructor
  · intro sends
    obtain ⟨b, eb, _, hg1, hlog⟩ := run_delivery (sendOps sends) hinv hg (touches_sendOps c sends)
    exact ⟨b, eb, hg1, by rw [hlog, deliveredTo_sendOps]⟩
  · intro ops hops
    obtain ⟨b, eb, _, hg1, hlog⟩ := run_delivery ops hinv hg hops
    exact ⟨b, eb, hg1, hlog⟩

/-- C20: on a bus satisfying the registry invariant, `RegisterChannel(c, s)`
and `UnregisterChannel(c)` complete and leave the entries under all other
keys as they were (same keys, same records), with the channels of those
records as open as before and holding the same deliveries; `SendUpdate(sid, u)`
completes and leaves the map as it was, opening and closing no channel. -/
theorem operations_frame (bus : UpdateBus α) (hinv : Inv bus) (c s sid : String) (u : α) :
    (∃ ch b, RegisterChannel bus c s = .ok (ch, b) ∧
      mapDelete b.Channels c = mapDelete bus.Channels c ∧
      ∀ c1, c1 ≠ c → mapGet b.Channels c1 = mapGet bus.Channels c1 ∧
        ∀ uch1, mapGet bus.Channels c1 = some uch1 →
          isOpen b.heap uch1.Ch = isOpen bus.heap uch1.Ch ∧
          logOf b.heap uch1.Ch = logOf bus.heap uch1.Ch) ∧
    (∃ b, UnregisterChannel bus c = .ok b ∧
      mapDelete b.Channels c = mapDelete bus.Channels c ∧
      ∀ c1, c1 ≠ c → mapGet b.Channels c1 = mapGet bus.Channels c1 ∧
        ∀ uch1, mapGet bus.Channels c1 = some uch1 →
          isOpen b.heap uch1.Ch = isOpen bus.heap uch1.Ch ∧
          logOf b.heap uch1.Ch = logOf bus.heap uch1.Ch) ∧
    (∃ b, SendUpdate bus sid u = .ok b ∧ b.Channels = bus.Channels ∧
      b.heap.length = bus.heap.length ∧
      ∀ j, isOpen b.heap j = isOpen bus.heap j ∧ isClosed b.heap j = isClosed bus.heap j) := by
  refine ⟨?_, ?_, ?_⟩
  · obtain ⟨b, eb, _, hdel, hfr⟩ := RegisterChannel_frame hinv c s
    refine ⟨_, b, eb, hdel, fun c1 hne => ⟨(hfr c1 hne).1, fun uch1 hg1 => ?_⟩⟩
    have e := (hfr c1 hne).2 uch1 hg1
    exact ⟨isOpen_congr e, logOf_congr e⟩
  · obtain ⟨b, eb, _, hdel, hfr⟩ := UnregisterChannel_frame hinv c
    refine ⟨b, eb, hdel, fun c1 hne => ⟨(hfr c1 hne).1, fun uch1 hg1 => ?_⟩⟩
    have e := (hfr c1 hne).2 uch1 hg1
    exact ⟨isOpen_congr e, logOf_congr e⟩
  · obtain ⟨b, eb, hch, hlen, ho, hcl, _⟩ :=
      SendUpdate_ok bus sid u (fun p hp _ => hinv.2.1 p hp)
    exact ⟨b, eb, hch, hlen, fun j => ⟨ho j, hcl j⟩⟩

/-- C13 at the sample bus: client "a" holds channel 0 with scope "sess1". -/
theorem SendUpdate_order_witness :
    Inv sampleBus ∧
    mapGet sampleBus.Channels "a" = some { SessionId := "sess1", ClientId := "a", Ch := 0 } ∧
    ((∀ sends : List (String × Nat),
      ∃ b, run sampleBus (sendOps sends) = .ok b ∧
        mapGet b.Channels "a" = some { SessionId := "sess1", ClientId := "a", Ch := 0 } ∧
        logOf b.heap 0 =
          logOf sampleBus.heap 0 ++
            (sends.filter (fun p =>
              UpdateChannel.Match { SessionId := "sess1", ClientId := "a", Ch := 0 } p.1)).map
                Prod.snd) ∧
    (∀ ops : List (Op Nat), (∀ op ∈ ops, touches "a" op = false) →
      ∃ b, run sampleBus ops = .ok b ∧
        mapGet b.Channels "a" = some { SessionId := "sess1", ClientId := "a", Ch := 0 } ∧
        logOf b.heap 0 =
          logOf sampleBus.heap 0 ++
            deliveredTo { SessionId := "sess1", ClientId := "a", Ch := 0 } ops)) :=
  ⟨by decide, rfl,
    SendUpdate_order sampleBus (by decide) "a"
      { SessionId := "sess1", ClientId := "a", Ch := 0 } rfl⟩

/-- C20 at the sample bus: calls for client "a" and a broadcast to "sess1". -/
theorem operations_frame_witness :
    Inv sampleBus ∧
    ((∃ ch b, RegisterChannel sampleBus "a" "sess2" = .ok (ch, b) ∧
      mapDelete b.Channels "a" = mapDelete sampleBus.Channels "a" ∧
      ∀ c1, c1 ≠ "a" → mapGet b.Channels c1 = mapGet sampleBus.Channels c1 ∧
        ∀ uch1, mapGet sampleBus.Channels c1 = some uch1 →
          isOpen b.heap uch1.Ch = isOpen sampleBus.heap uch1.Ch ∧
          logOf b.heap uch1.Ch = logOf sampleBus.heap uch1.Ch) ∧
    (∃ b, UnregisterChannel sampleBus "a" = .ok b ∧
      mapDelete b.Channels "a" = mapDelete sampleBus.Channels "a" ∧
      ∀ c1, c1 ≠ "a" → mapGet b.Channels c1 = mapGet sampleBus.Channels c1 ∧
        ∀ uch1, mapGet sampleBus.Channels c1 = some uch1 →
          isOpen b.heap uch1.Ch = isOpen sampleBus.heap uch1.Ch ∧
          logOf b.heap uch1.Ch = logOf sampleBus.heap uch1.Ch) ∧
    (∃ b, SendUpdate sampleBus "sess1" 7 = .ok b ∧ b.Channels = sampleBus.Channels ∧
      b.heap.length = sampleBus.heap.length ∧
      ∀ j, isOpen b.heap j = isOpen sampleBus.heap j ∧
        isClosed b.heap j = isClosed sampleBus.heap j)) :=
  ⟨by decide, operations_frame sampleBus (by decide) "a" "sess2" "sess1" 7⟩

end BusClaims

/-! ### Update payloads: type tags, constructors and the history accessor -/

section PayloadClaims

/-- C14: `ReadHistoryDataFromUpdate` returns `("", "", nil)` for every update
that is not a `ModelUpdate` value with a line facet: for the nil interface,
for every `PtyDataUpdate`, for every pointer form, and for every
`ModelUpdate` whose `Line` is nil, whatever its other fields. -/
theorem ReadHistoryDataFromUpdate_not_applicable {D : Decls} (update : UpdatePacket D)
    (h : ∀ m, update = .modelValue m → m.Line = none) :
    ReadHistoryDataFromUpdate update = ("", "", none) := by
  cases update with
  | modelValue m =>
    have hl := h m rfl
    simp [ReadHistoryDataFromUpdate, hl]
  | nilPacket => rfl
  | ptyValue u => rfl
  | ptyPointer u => rfl
  | modelPointer u => rfl

/-- C14 at a model update that has a command facet and no line facet. -/
theorem ReadHistoryDataFromUpdate_not_applicable_witness :
    (∀ m, UpdatePacket.modelValue sampleNoLineUpdate = .modelValue m → m.Line = none) ∧
    sampleNoLineUpdate.Cmd.isSome = true ∧
    ReadHistoryDataFromUpdate (.modelValue sampleNoLineUpdate) = ("", "", none) :=
  ⟨fun m e => by cases e; rfl, rfl,
    ReadHistoryDataFromUpdate_not_applicable (.modelValue sampleNoLineUpdate)
      (fun m e => by cases e; rfl)⟩

/-- C15, as stated, fails: the sample update carries the line facet
("line1", "cmd1") and a command facet, and handed over as a pointer
(`*ModelUpdate`) it is a model update by its tag, yet the accessor returns
`("", "", nil)`. -/
theorem ReadHistoryDataFromUpdate_pointer_form :
    sampleLineUpdate.Line.map (fun l => (l.LineId, l.CmdId)) = some ("line1", "cmd1") ∧
    (UpdatePacket.modelPointer (some sampleLineUpdate)).UpdateType = some "model" ∧
    ReadHistoryDataFromUpdate (.modelPointer (some sampleLineUpdate)) = ("", "", none) ∧
    ReadHistoryDataFromUpdate (.modelPointer (some sampleLineUpdate)) ≠
      ("line1", "cmd1", some ()) :=
  ⟨rfl, rfl, rfl, fun e => absurd (congrArg Prod.fst e) (by decide)⟩

/-- C15 (amended): for every update handed over as a `ModelUpdate` value
that carries a line facet, `ReadHistoryDataFromUpdate` returns
`(Line.LineId, Line.CmdId, r)` where `r` points to `Cmd.Remote` when the
command facet is present and is nil exactly when it is absent; handed over
as a `*ModelUpdate` pointer, the same update gives `("", "", nil)`. -/
theorem ReadHistoryDataFromUpdate_line {D : Decls} (m : ModelUpdate D) (line : LineType D)
    (h : m.Line = some line) :
    ReadHistoryDataFromUpdate (.modelValue m) =
      (line.LineId, line.CmdId, m.Cmd.map (fun cmd => cmd.Remote)) ∧
    ((ReadHistoryDataFromUpdate (.modelValue m)).2.2 = none ↔ m.Cmd = none) ∧
    ReadHistoryDataFromUpdate (.modelPointer (some m)) = ("", "", none) := by
  cases hc : m.Cmd with
  | none => simp [ReadHistoryDataFromUpdate, h, hc]
  | some cmd => simp [ReadHistoryDataFromUpdate, h, hc]

/-- C15 (amended) at the sample update with line facet ("line1", "cmd1"). -/
theorem ReadHistoryDataFromUpdate_line_witness :
    sampleLineUpdate.Line = some { LineId := "line1", CmdId := "cmd1", rest := () } ∧
    (ReadHistoryDataFromUpdate (.modelValue sampleLineUpdate) =
      ("line1", "cmd1", sampleLineUpdate.Cmd.map (fun cmd => cmd.Remote)) ∧
    ((ReadHistoryDataFromUpdate (.modelValue sampleLineUpdate)).2.2 = none ↔
      sampleLineUpdate.Cmd = none) ∧
    ReadHistoryDataFromUpdate (.modelPointer (some sampleLineUpdate)) = ("", "", none)) :=
  ⟨rfl, ReadHistoryDataFromUpdate_line sampleLineUpdate
    { LineId := "line1", CmdId := "cmd1", rest := () } rfl⟩

/-- C16: for every format and argument list `InfoMsgUpdate` returns a
non-nil pointer to a model update whose `Info` facet is present, with
`InfoMsg` the string `fmt.Sprintf` produced and every other field of the
facet zero, and whose other facets are all absent.  In particular, with a
`Sprintf` that formats "count=%d" on the argument 5 as "count=5", the
message is "count=5". -/
theorem InfoMsgUpdate_spec (D : Decls) {A : Type} (sprintf : String → List A → String)
    (infoMsgFmt : String) (args : List A) (five : A)
    (h5 : sprintf "count=%d" [five] = "count=5") :
    (∃ m info, InfoMsgUpdate D sprintf infoMsgFmt args = some m ∧ m.Info = some info ∧
      info.InfoMsg = sprintf infoMsgFmt args ∧
      info.InfoTitle = "" ∧ info.InfoError = "" ∧ info.InfoComps = none ∧
      info.InfoCompsMore = false ∧ info.InfoLines = none ∧ info.TimeoutMs = 0 ∧
      m.Sessions = none ∧ m.ActiveSessionId = "" ∧ m.Window = none ∧ m.Line = none ∧
      m.Cmd = none ∧ m.CmdLine = none ∧ m.Remotes = none ∧ m.History = none ∧
      m.Interactive = false ∧ m.Connect = false) ∧
    (InfoMsgUpdate D sprintf "count=%d" [five]).bind (fun m => m.Info.map (fun i => i.InfoMsg)) =
      some "count=5" := by
  refine ⟨⟨_, _, rfl, rfl, rfl, rfl, rfl, rfl, rfl, rfl, rfl, rfl, rfl, rfl, rfl, rfl, rfl,
    rfl, rfl, rfl, rfl⟩, ?_⟩
  simp [InfoMsgUpdate, h5]

/-- C16 with the sample formatter: format "count=%d" and argument 5. -/
theorem InfoMsgUpdate_spec_witness :
    sprintfModel "count=%d" [GoArg.int 5] = "count=5" ∧
    ((∃ m info, InfoMsgUpdate sampleDecls sprintfModel "%s: %d%%" [GoArg.str "load", GoArg.int 7]
        = some m ∧ m.Info = some info ∧
      info.InfoMsg = sprintfModel "%s: %d%%" [GoArg.str "load", GoArg.int 7] ∧
      info.InfoTitle = "" ∧ info.InfoError = "" ∧ info.InfoComps = none ∧
      info.InfoCompsMore = false ∧ info.InfoLines = none ∧ info.TimeoutMs = 0 ∧
      m.Sessions = none ∧ m.ActiveSessionId = "" ∧ m.Window = none ∧ m.Line = none ∧
      m.Cmd = none ∧ m.CmdLine = none ∧ m.Remotes = none ∧ m.History = none ∧
      m.Interactive = false ∧ m.Connect = false) ∧
    (InfoMsgUpdate sampleDecls sprintfModel "count=%d" [GoArg.int 5]).bind
      (fun m => m.Info.map (fun i => i.InfoMsg)) = some "count=5") :=
  ⟨by decide,
    InfoMsgUpdate_spec sampleDecls sprintfModel "%s: %d%%" [GoArg.str "load", GoArg.int 7]
      (GoArg.int 5) (by decide)⟩

/-- C17: `UpdateType` returns "pty" for every `PtyDataUpdate` and "model" for
every `ModelUpdate`, whatever the field values; the two tags differ; and
through the interface the tag is "pty" exactly for the stream-data updates
and "model" exactly for the model updates. -/
theorem UpdateType_tag (D : Decls) :
    (∀ p : PtyDataUpdate, p.UpdateType = "pty") ∧
    (∀ m : ModelUpdate D, m.UpdateType = "model") ∧
    (∀ (p : PtyDataUpdate) (m : ModelUpdate D), p.UpdateType ≠ m.UpdateType) ∧
    (∀ p : PtyDataUpdate, (UpdatePacket.ptyValue p : UpdatePacket D).UpdateType = some "pty") ∧
    (∀ m : ModelUpdate D, (UpdatePacket.modelValue m).UpdateType = some "model") ∧
    (∀ x : UpdatePacket D, x.UpdateType = some "pty" ↔
      ∃ p, x = .ptyValue p ∨ x = .ptyPointer (some p)) ∧
    (∀ x : UpdatePacket D, x.UpdateType = some "model" ↔
      ∃ m, x = .modelValue m ∨ x = .modelPointer (some m)) := by
  have hne : ("pty" : String) ≠ "model" := by decide
  refine ⟨fun _ => rfl, fun _ => rfl, fun _ _ => hne, fun _ => rfl, fun _ => rfl, ?_, ?_⟩
  · intro x
    cases x with
    | nilPacket => simp [UpdatePacket.UpdateType]
    | ptyValue u =>
      simp [UpdatePacket.UpdateType, PtyDataUpdate.UpdateType, PtyDataUpdateStr]
    | modelValue u =>
      simp [UpdatePacket.UpdateType, ModelUpdate.UpdateType, ModelUpdateStr]
    | ptyPointer u =>
      cases u with
      | none => simp [UpdatePacket.UpdateType]
      | some u =>
        simp [UpdatePacket.UpdateType, PtyDataUpdate.UpdateType, PtyDataUpdateStr]
    | modelPointer u =>
      cases u with
      | none => simp [UpdatePacket.UpdateType]
      | some u =>
        simp [UpdatePacket.UpdateType, ModelUpdate.UpdateType, ModelUpdateStr]
  · intro x
    cases x with
    | nilPacket => simp [UpdatePacket.UpdateType]
    | ptyValue u =>
      simp [UpdatePacket.UpdateType, PtyDataUpdate.UpdateType, PtyDataUpdateStr]
    | modelValue u =>
      simp [UpdatePacket.UpdateType, ModelUpdate.UpdateType, ModelUpdateStr]
    | ptyPointer u =>
      cases u with
      | none => simp [UpdatePacket.UpdateType]
      | some u =>
        simp [UpdatePacket.UpdateType, PtyDataUpdate.UpdateType, PtyDataUpdateStr]
    | modelPointer u =>
      cases u with
      | none => simp [UpdatePacket.UpdateType]
      | some u =>
        simp [UpdatePacket.UpdateType, ModelUpdate.UpdateType, ModelUpdateStr]

/-- C18: `MakeSingleSessionUpdate(sid)` returns a non-nil session with
`SessionId = sid`, `NotifyNum = -1` and every other field zero, and an
update whose `Sessions` is a list of length one holding that session and
whose other facets are all absent. -/
theorem MakeSingleSessionUpdate_spec (D : Decls) (sid : String) :
    ∃ session, (MakeSingleSessionUpdate D sid).2 = some session ∧
      session.SessionId = sid ∧ session.NotifyNum = -1 ∧ session.Remotes = none ∧
      session.rest = D.sessionRestZero ∧
      (MakeSingleSessionUpdate D sid).1.Sessions = some [(MakeSingleSessionUpdate D sid).2] ∧
      (MakeSingleSessionUpdate D sid).1.Sessions.map List.length = some 1 ∧
      (MakeSingleSessionUpdate D sid).1.ActiveSessionId = "" ∧
      (MakeSingleSessionUpdate D sid).1.Window = none ∧
      (MakeSingleSessionUpdate D sid).1.Line = none ∧
      (MakeSingleSessionUpdate D sid).1.Cmd = none ∧
      (MakeSingleSessionUpdate D sid).1.CmdLine = none ∧
      (MakeSingleSessionUpdate D sid).1.Info = none ∧
      (MakeSingleSessionUpdate D sid).1.Remotes = none ∧
      (MakeSingleSessionUpdate D sid).1.History = none ∧
      (MakeSingleSessionUpdate D sid).1.Interactive = false ∧
      (MakeSingleSessionUpdate D sid).1.Connect = false :=
  ⟨_, rfl, rfl, rfl, rfl, rfl, rfl, rfl, rfl, rfl, rfl, rfl, rfl, rfl, rfl, rfl, rfl, rfl⟩

end PayloadClaims

end UpdateBusModel
